import Mathlib

/-!
Shallow embedding of the RCAN registry's RURI parser/builder (`src/unnamed/part_001`)
and of the RURI sync script (`src/unnamed/part_002`), together with proofs of the
specified properties.

Strings are modelled as Lean `String`/`List Char`; JavaScript's `String.prototype.trim`,
`startsWith`, `includes`, `replace` and `Array.prototype.join` are given explicit
executable counterparts.  The validation regular expression `RURI_REGEX` is embedded as
a deterministic matcher (`RURI_REGEX_match`), faithful to the backtracking semantics of
the anchored JavaScript regex (the analysis of the finitely many backtracking points is
recorded in comments at the relevant definitions).
-/

namespace RCAN

/-! ### ASCII character classes of the regex (with the `i` flag, classes are
case-insensitive; `\d` is `[0-9]`) -/

/-- `[a-z]` under the `i` flag: an ASCII letter. -/
def isAsciiLetter (c : Char) : Bool :=
  (65 ≤ c.toNat && c.toNat ≤ 90) || (97 ≤ c.toNat && c.toNat ≤ 122)

/-- `\d`: an ASCII digit. -/
def isDigitChar (c : Char) : Bool := 48 ≤ c.toNat && c.toNat ≤ 57

/-- `[a-z0-9]` under the `i` flag. -/
def isAlnum (c : Char) : Bool := isAsciiLetter c || isDigitChar c

/-- `[0-9a-f]` under the `i` flag: a hexadecimal digit. -/
def isHexChar (c : Char) : Bool :=
  isDigitChar c || (97 ≤ c.toNat && c.toNat ≤ 102) || (65 ≤ c.toNat && c.toNat ≤ 70)

/-- `[a-z0-9.-]` under the `i` flag (registry authority interior). -/
def isAuthChar (c : Char) : Bool := isAlnum c || c = '.' || c = '-'

/-- `[a-z0-9-]` under the `i` flag (manufacturer/model slug interior). -/
def isSlugChar (c : Char) : Bool := isAlnum c || c = '-'

/-- The class "a-z, 0-9, slash, hyphen" under the `i` flag (capability interior). -/
def isCapChar (c : Char) : Bool := isAlnum c || c = '/' || c = '-'

/-- Case-insensitive character comparison, as performed by a JavaScript regex with the
`i` flag on ASCII input: equal, or the same letter in the two cases. -/
def caseEq (c d : Char) : Bool :=
  c = d || (isAsciiLetter c && isAsciiLetter d &&
            (c.toNat + 32 = d.toNat || d.toNat + 32 = c.toNat))

/-! ### JavaScript string primitives -/

/-- Whitespace removed by `String.prototype.trim` (ASCII part). -/
def isJsWs (c : Char) : Bool :=
  c = ' ' || c = '\t' || c = '\n' || c = '\r' || c.toNat = 11 || c.toNat = 12

/-- `String.prototype.trim`. -/
def jsTrim (l : List Char) : List Char :=
  ((l.dropWhile isJsWs).reverse.dropWhile isJsWs).reverse

/-- Does `p` occur at the start of `l`?  (`String.prototype.startsWith`.) -/
def startsWithList (p l : List Char) : Bool :=
  match p, l with
  | [], _ => true
  | _ :: _, [] => false
  | a :: p', b :: l' => a = b && startsWithList p' l'

/-- Does `suf` occur at the end of `l`?  (`String.prototype.endsWith`.) -/
def endsWithList (suf l : List Char) : Bool :=
  startsWithList suf.reverse l.reverse

/-- Does `n` occur somewhere in `h`?  (`String.prototype.includes`.) -/
def isSubstr (n h : List Char) : Bool :=
  match h with
  | [] => n.isEmpty
  | _ :: t => startsWithList n h || isSubstr n t

/-- `String.prototype.replace` with a plain-string pattern: replace the first
occurrence of `pat` (if any) by `rep`. -/
def replaceFirst (pat rep l : List Char) : List Char :=
  match l with
  | [] => []
  | c :: t => if startsWithList pat l then rep ++ l.drop pat.length else c :: replaceFirst pat rep t

/-- Numeric value of an ASCII digit. -/
def digitVal (c : Char) : Nat := c.toNat - 48

/-- `parseInt(s, 10)` on a non-empty all-digit string. -/
def digitsToNat (l : List Char) : Nat := l.foldl (fun a c => 10 * a + digitVal c) 0

/-- The ASCII digit for a value below ten. -/
def digitChar (d : Nat) : Char :=
  match d with
  | 0 => '0' | 1 => '1' | 2 => '2' | 3 => '3' | 4 => '4'
  | 5 => '5' | 6 => '6' | 7 => '7' | 8 => '8' | _ => '9'

/-- Decimal digit expansion, most significant first (`fuel` bounds the recursion so
that the definition is structural). -/
def natToCharsAux (fuel n : Nat) : List Char :=
  match fuel with
  | 0 => []
  | fuel + 1 => if n = 0 then [] else natToCharsAux fuel (n / 10) ++ [digitChar (n % 10)]

/-- JavaScript `Number.prototype.toString` on a natural number: decimal digits,
most significant first, `"0"` for zero. -/
def natToChars (n : Nat) : List Char :=
  if n = 0 then ['0'] else natToCharsAux n n

/-- `String.prototype.padStart(8, '0')`. -/
def padStart8 (l : List Char) : List Char :=
  List.replicate (8 - l.length) '0' ++ l

/-- `Array.prototype.join('\n')`. -/
def joinLines (ls : List String) : String :=
  match ls with
  | [] => ""
  | [l] => l
  | l :: rest => l ++ "\n" ++ joinLines rest

/-! ### The RURI regular expression

`RURI_REGEX` in both `part_001` (line 24) and `part_002` (line 128):

`/^rcan:\/\/([a-z0-9][a-z0-9.-]*[a-z0-9])\/([a-z0-9][a-z0-9-]*[a-z0-9])\/`
`([a-z0-9][a-z0-9-]*[a-z0-9])\/([0-9a-f]{8}(?:-[0-9a-f]{4}-[0-9a-f]{4}-[0-9a-f]{4}-`
`[0-9a-f]{12})?)(?::(\d{1,5}))?(\/?[a-z][a-z0-9 slash -]*)?$ /i` (the final character
class is "a-z, 0-9, slash, hyphen"; spelled out here to keep the comment well-formed)
-/

/-- The six capture groups of `RURI_REGEX` (port and capability are the raw captured
character sequences). -/
structure RURICaps where
  registry : List Char
  manufacturer : List Char
  model : List Char
  deviceId : List Char
  port : Option (List Char)
  capability : Option (List Char)
deriving DecidableEq, Repr

/-- Pointwise case-insensitive equality of two character lists. -/
def listCaseEq (a b : List Char) : Bool :=
  a.length == b.length && (a.zip b).all fun p => caseEq p.1 p.2

/-- Match the literal `rcan://` case-insensitively at the start of `l` and return the
remainder. -/
def schemeOK (l : List Char) : Option (List Char) :=
  if listCaseEq (l.take 7) "rcan://".data then some (l.drop 7) else none

/-- `[x][mid]*[x]` over the remainder of a segment: interior characters satisfy `mid`,
the final character is alphanumeric (so the whole segment has length at least two). -/
def segTail (mid : Char → Bool) (l : List Char) : Bool :=
  match l with
  | [] => false
  | [c] => isAlnum c
  | c :: rest => mid c && segTail mid rest

/-- `[a-z0-9][mid]*[a-z0-9]` consuming the whole list: the authority/slug shape.
Because the interior classes exclude `/` and a literal `/` follows each such group in
the regex, the group must consume exactly the characters up to the next `/`. -/
def segOK (mid : Char → Bool) (l : List Char) : Bool :=
  match l with
  | [] => false
  | c :: rest => isAlnum c && segTail mid rest

/-- Split at the first occurrence of `sep`. -/
def splitFirst (sep : Char) (l : List Char) : Option (List Char × List Char) :=
  match l with
  | [] => none
  | c :: rest =>
    if c = sep then some ([], rest)
    else (splitFirst sep rest).map fun p => (c :: p.1, p.2)

/-- Exactly `n` hexadecimal digits. -/
def hexRun (l : List Char) (n : Nat) : Bool := l.length == n && l.all isHexChar

/-- The optional UUID tail `-[0-9a-f]{4}-[0-9a-f]{4}-[0-9a-f]{4}-[0-9a-f]{12}`
(exactly 28 characters). -/
def uuidTail (t : List Char) : Bool :=
  t.length == 28 &&
  t.take 1 == ['-'] && hexRun ((t.drop 1).take 4) 4 &&
  (t.drop 5).take 1 == ['-'] && hexRun ((t.drop 6).take 4) 4 &&
  (t.drop 10).take 1 == ['-'] && hexRun ((t.drop 11).take 4) 4 &&
  (t.drop 15).take 1 == ['-'] && hexRun ((t.drop 16).take 12) 12

/-- Device-id group `([0-9a-f]{8}(?:-…)?)`: eight hex digits, greedily extended by the
UUID tail.  If the 28 characters after the eight hex digits form the UUID tail, the
greedy attempt succeeds; otherwise the group matches the eight hex digits alone.  (When
the tail matches but the regex continuation later fails, backtracking to the short
variant also fails, because the continuation would then start with `-`, which neither
the port nor the capability group nor `$` accepts — so this is deterministic.) -/
def matchDevice (l : List Char) : Option (List Char × List Char) :=
  if (l.take 8).length == 8 && (l.take 8).all isHexChar then
    if uuidTail ((l.drop 8).take 28) then some (l.take 36, l.drop 36)
    else some (l.take 8, l.drop 8)
  else none

/-- Port group `(?::(\d{1,5}))?`.  A maximal run of digits follows the `:`; if it is
empty or longer than five, every backtracking variant leaves a leading `:` or a leading
digit for the capability group, which accepts neither, so the whole match fails. -/
def matchPort (l : List Char) : Option (Option (List Char) × List Char) :=
  match l with
  | ':' :: rest =>
    if (rest.takeWhile isDigitChar).length = 0 ∨ (rest.takeWhile isDigitChar).length > 5
    then none
    else some (some (rest.takeWhile isDigitChar),
               rest.drop (rest.takeWhile isDigitChar).length)
  | _ => some (none, l)

/-- Capability group `(\/?[a-z][…]*)?` (interior class: a-z, 0-9, slash, hyphen)
followed by `$`: the whole remainder,
an optional `/`, then a letter, then capability characters. -/
def capOK (l : List Char) : Bool :=
  match l with
  | '/' :: c :: rest => isAsciiLetter c && rest.all isCapChar
  | c :: rest => isAsciiLetter c && rest.all isCapChar
  | [] => false

/-- The anchored match of `RURI_REGEX` against a whole string, returning the capture
groups.  The three authority/slug groups cannot contain `/` and are each followed by a
literal `/`, so they are the maximal `/`-free chunks. -/
def RURI_REGEX_match (l : List Char) : Option RURICaps :=
  match schemeOK l with
  | none => none
  | some r0 =>
  match splitFirst '/' r0 with
  | none => none
  | some (a, r1) =>
  if !segOK isAuthChar a then none else
  match splitFirst '/' r1 with
  | none => none
  | some (m, r2) =>
  if !segOK isSlugChar m then none else
  match splitFirst '/' r2 with
  | none => none
  | some (o, r3) =>
  if !segOK isSlugChar o then none else
  match matchDevice r3 with
  | none => none
  | some (d, r4) =>
  match matchPort r4 with
  | none => none
  | some (p, r5) =>
  if r5.isEmpty then some ⟨a, m, o, d, p, none⟩
  else if capOK r5 then some ⟨a, m, o, d, p, some r5⟩
  else none

/-! ### Grammar predicates (for stating soundness/completeness of the matcher) -/

/-- The two shapes the device-id group can capture: eight hex digits, or a full
hyphenated UUID (8 hex digits plus the 28-character tail). -/
def deviceOK (d : List Char) : Bool :=
  (d.length == 8 && d.all isHexChar) ||
  (d.length == 36 && (d.take 8).all isHexChar && uuidTail (d.drop 8))

/-- A capability with its optional leading slash removed: a letter followed by
capability characters. -/
def capSeg (l : List Char) : Bool :=
  match l with
  | c :: rest => isAsciiLetter c && rest.all isCapChar
  | [] => false

/-- Well-formedness of the port capture: one to five digits. -/
def portCapOK (p : Option (List Char)) : Bool :=
  match p with
  | none => true
  | some ds => 1 ≤ ds.length && ds.length ≤ 5 && ds.all isDigitChar

/-- Well-formedness of the capability capture. -/
def capCapOK (c : Option (List Char)) : Bool :=
  match c with
  | none => true
  | some l => capOK l

/-- The characters contributed to the matched string by the port group. -/
def portChars (p : Option (List Char)) : List Char :=
  match p with
  | none => []
  | some ds => ':' :: ds

/-- The characters contributed to the matched string by the capability group. -/
def capChars (c : Option (List Char)) : List Char :=
  match c with
  | none => []
  | some l => l

/-- Well-formedness of a full capture record. -/
def capsOK (caps : RURICaps) : Bool :=
  segOK isAuthChar caps.registry && segOK isSlugChar caps.manufacturer &&
  segOK isSlugChar caps.model && deviceOK caps.deviceId &&
  portCapOK caps.port && capCapOK caps.capability

/-- The string matched by `RURI_REGEX` with capture record `caps` and (case-variant)
scheme `sch`. -/
def assemble (sch : List Char) (caps : RURICaps) : List Char :=
  sch ++ caps.registry ++ '/' :: caps.manufacturer ++ '/' :: caps.model ++
    '/' :: caps.deviceId ++ portChars caps.port ++ capChars caps.capability

/-! ### `part_001`: parser and builder -/

/-- `ParsedRURI` (`part_001` lines 7–15).  `raw` holds the trimmed input. -/
structure ParsedRURI where
  raw : String
  registry : String
  manufacturer : String
  model : String
  deviceId : String
  port : Option Nat := none
  capability : Option String := none
deriving DecidableEq, Repr

/-- `RURIValidationResult` (`part_001` lines 17–21): either an error message or a
parse; the source never returns both. -/
inductive RURIValidationResult where
  | invalid (error : String)
  | valid (parsed : ParsedRURI)
deriving DecidableEq, Repr

/-- `capability?.replace(/^\//, '')`: strip one leading slash. -/
def stripLeadSlash (l : List Char) : List Char :=
  match l with
  | '/' :: r => r
  | _ => l

/-- The `capability` field of the parse result:
`capability?.replace(/^\//, '') || undefined` (empty string coerces to `undefined`). -/
def capField (c : Option (List Char)) : Option String :=
  match c with
  | none => none
  | some l =>
    if (stripLeadSlash l).isEmpty then none else some ⟨stripLeadSlash l⟩

/-- `parseRURI` (`part_001` lines 29–68).  The empty-string test models `if (!ruri)`;
the scheme test is the case-sensitive `startsWith('rcan://')`; the port range test
models `if (port) { const portNum = parseInt(port, 10); if (portNum < 1 || portNum >
65535) … }` (the captured port string is non-empty, hence always truthy). -/
def parseRURI (ruri : String) : RURIValidationResult :=
  if ruri = "" then .invalid "RURI cannot be empty"
  else if !startsWithList "rcan://".data (jsTrim ruri.data) then
    .invalid "RURI must start with rcan://"
  else
    match RURI_REGEX_match (jsTrim ruri.data) with
    | none => .invalid "Invalid RURI format"
    | some caps =>
      match caps.port with
      | some ds =>
        if digitsToNat ds < 1 || digitsToNat ds > 65535 then
          .invalid "Port must be between 1 and 65535"
        else
          .valid ⟨⟨jsTrim ruri.data⟩, ⟨caps.registry⟩, ⟨caps.manufacturer⟩,
                  ⟨caps.model⟩, ⟨caps.deviceId⟩, some (digitsToNat ds),
                  capField caps.capability⟩
      | none =>
        .valid ⟨⟨jsTrim ruri.data⟩, ⟨caps.registry⟩, ⟨caps.manufacturer⟩,
                ⟨caps.model⟩, ⟨caps.deviceId⟩, none, capField caps.capability⟩

/-- The argument object of `buildRURI` (`part_001` lines 73–80). -/
structure RURIParts where
  registry : String
  manufacturer : String
  model : String
  deviceId : String
  port : Option Nat := none
  capability : Option String := none
deriving DecidableEq, Repr

/-- `buildRURI` (`part_001` lines 73–92).  `if (parts.port)` is false for `undefined`
and for `0`; `if (parts.capability)` is false for `undefined` and for `""`. -/
def buildRURI (parts : RURIParts) : String :=
  ⟨"rcan://".data ++ parts.registry.data ++ '/' :: parts.manufacturer.data ++
    '/' :: parts.model.data ++ '/' :: parts.deviceId.data ++
    (match parts.port with
     | some p => if p ≠ 0 then ':' :: natToChars p else []
     | none => []) ++
    (match parts.capability with
     | some c => if c ≠ "" then '/' :: c.data else []
     | none => [])⟩

/-- The component set carried by a parse result. -/
def ParsedRURI.toParts (p : ParsedRURI) : RURIParts :=
  ⟨p.registry, p.manufacturer, p.model, p.deviceId, p.port, p.capability⟩

/-! ### The manifest value

`fetchManifest` (`part_002` lines 192–202) returns `response.json()` with a bare type
assertion, so at run time a manifest is an arbitrary JSON object.  We model a manifest
object by a record of optional fields; `none` stands for a field that is absent (or not
of the declared primitive type).  JSON numbers are represented by their JavaScript
decimal rendering, so that emitting them into YAML text is exact; the truthiness test
`if (x)` on a number is false exactly for `0` and `NaN`, i.e. for the renderings `"0"`
and `"NaN"`. -/

/-- The `specs` sub-object of a manifest (`part_001` lines 123–130). -/
structure SpecsJson where
  weight_kg : Option String := none
  dimensions : Option String := none
  dof : Option String := none
  sensors : Option (List String) := none
  compute : Option String := none
  ros_version : Option (List String) := none
deriving DecidableEq, Repr

/-- The `links` sub-object of a manifest (`part_001` lines 131–136). -/
structure LinksJson where
  urdf : Option String := none
  github : Option String := none
  website : Option String := none
  documentation : Option String := none
deriving DecidableEq, Repr

/-- The `owner` sub-object of a manifest (`part_001` lines 137–141). -/
structure OwnerJson where
  name : Option String := none
  type : Option String := none
  contact : Option String := none
deriving DecidableEq, Repr

/-- A manifest object as received from the network (`RobotManifest`,
`part_001` lines 114–146, before any validation). -/
structure ManifestJson where
  ruri : Option String := none
  name : Option String := none
  manufacturer : Option String := none
  model : Option String := none
  description : Option String := none
  version : Option String := none
  capabilities : Option (List String) := none
  status : Option String := none
  specs : Option SpecsJson := none
  links : Option LinksJson := none
  owner : Option OwnerJson := none
deriving DecidableEq, Repr

/-- `validateManifest` (`part_001` lines 151–165): presence (and string type, folded
into presence in this model) of the four mandatory fields. -/
def validateManifest (m : ManifestJson) : Bool :=
  m.ruri.isSome && m.name.isSome && m.manufacturer.isSome && m.model.isSome

/-- JavaScript template interpolation of a possibly-undefined string. -/
def jsStr (o : Option String) : String := o.getD "undefined"

/-- JavaScript `x || d` on a possibly-undefined string (empty string is falsy). -/
def orDefault (o : Option String) (d : String) : String :=
  match o with
  | some s => if s = "" then d else s
  | none => d

/-- JavaScript `if (x)` on a possibly-undefined string: keep only truthy values. -/
def truthyStr (o : Option String) : Option String :=
  match o with
  | some s => if s = "" then none else some s
  | none => none

/-- JavaScript `if (x)` on a possibly-undefined number (rendered): `0` and `NaN` are
falsy. -/
def truthyNum (o : Option String) : Option String :=
  match o with
  | some s => if s = "0" || s = "NaN" then none else some s
  | none => none

/-! ### `part_001`: `manifestToRegistryData` -/

/-- The owner object rebuilt by `manifestToRegistryData` (name and type copied,
contact dropped). -/
structure RegOwner where
  name : Option String := none
  type : Option String := none
deriving DecidableEq, Repr

/-- The record object returned by `manifestToRegistryData` (`part_001`
lines 170–203). -/
structure RegistryData where
  rrn : String
  name : Option String
  manufacturer : Option String
  model : Option String
  description : String
  status : String
  ruri : Option String
  urdf_url : Option String
  github_url : Option String
  website : Option String
  specs : Option SpecsJson
  owner : Option RegOwner
  tags : List String
  submitted_by : String
  submitted_date : String
deriving DecidableEq, Repr

/-- `manifestToRegistryData` (`part_001` lines 170–203).  The `parseRURI` call on
line 171 is dead (its result is unused) and is omitted.  `new Date().toISOString().
split('T')[0]` is passed in as `today`.  The conditional `manifest.specs ? {…} :
undefined` copies exactly the six known spec fields, which on this model is the
identity. -/
def manifestToRegistryData (m : ManifestJson) (rrn : String) (today : String) :
    RegistryData :=
  { rrn := rrn
    name := m.name
    manufacturer := m.manufacturer
    model := m.model
    description :=
      orDefault m.description
        ("Robot registered via RCAN protocol from " ++ jsStr m.ruri)
    status := if m.status = some "offline" then "retired" else "active"
    ruri := m.ruri
    urdf_url := m.links.bind LinksJson.urdf
    github_url := m.links.bind LinksJson.github
    website := m.links.bind LinksJson.website
    specs := m.specs
    owner := m.owner.map fun o => ⟨o.name, o.type⟩
    tags := "rcan-registered" :: (m.capabilities.getD [])
    submitted_by := "rcan-auto-register"
    submitted_date := today }

/-! ### `part_002`: the sync script -/

/-- `parseRURI` of the sync script (`part_002` lines 170–184): trim, regex, no
emptiness / scheme / port-range checks; `port ? parseInt(port, 10) : undefined` (the
captured string is non-empty, hence truthy). -/
def syncParseRURI (ruri : String) : Option ParsedRURI :=
  match RURI_REGEX_match (jsTrim ruri.data) with
  | none => none
  | some caps =>
    some ⟨⟨jsTrim ruri.data⟩, ⟨caps.registry⟩, ⟨caps.manufacturer⟩, ⟨caps.model⟩,
          ⟨caps.deviceId⟩, caps.port.map digitsToNat, capField caps.capability⟩

/-- Lines emitted for the manifest links (`part_002` lines 215–223). -/
def linkLines (links : Option LinksJson) : List String :=
  (match truthyStr (links.bind LinksJson.urdf) with
   | some u => ["urdf_url: \"" ++ u ++ "\""]
   | none => []) ++
  (match truthyStr (links.bind LinksJson.github) with
   | some g => ["github_url: \"" ++ g ++ "\""]
   | none => []) ++
  (match truthyStr (links.bind LinksJson.website) with
   | some w => ["website: \"" ++ w ++ "\""]
   | none => [])

/-- Lines emitted for the manifest specs (`part_002` lines 226–241). -/
def specLines (specs : Option SpecsJson) : List String :=
  match specs with
  | none => []
  | some sp =>
    ["specs:"] ++
    (match truthyNum sp.weight_kg with
     | some w => ["  weight_kg: " ++ w]
     | none => []) ++
    (match truthyStr sp.dimensions with
     | some s => ["  dimensions: \"" ++ s ++ "\""]
     | none => []) ++
    (match truthyNum sp.dof with
     | some s => ["  dof: " ++ s]
     | none => []) ++
    (match truthyStr sp.compute with
     | some s => ["  compute: \"" ++ s ++ "\""]
     | none => []) ++
    (match sp.ros_version with
     | some vs =>
       if vs.length > 0 then "  ros_version:" :: vs.map (fun v => "    - \"" ++ v ++ "\"")
       else []
     | none => []) ++
    (match sp.sensors with
     | some ss =>
       if ss.length > 0 then "  sensors:" :: ss.map (fun s => "    - \"" ++ s ++ "\"")
       else []
     | none => []) ++
    [""]

/-- Lines emitted for the manifest owner (`part_002` lines 243–248). -/
def ownerLines (owner : Option OwnerJson) : List String :=
  match owner with
  | some o =>
    ["owner:", "  name: \"" ++ jsStr o.name ++ "\"", "  type: \"" ++ jsStr o.type ++ "\"", ""]
  | none => []

/-- The tag list of `manifestToYaml` (`part_002` line 255). -/
def yamlTags (m : ManifestJson) : List String :=
  "rcan-synced" :: (m.capabilities.getD [])

/-- The line list built by `manifestToYaml` (`part_002` lines 205–257). -/
def yamlLines (m : ManifestJson) (rrn : String) (today : String) : List String :=
  ["rrn: \"" ++ rrn ++ "\"",
   "name: \"" ++ jsStr m.name ++ "\"",
   "manufacturer: \"" ++ jsStr m.manufacturer ++ "\"",
   "model: \"" ++ jsStr m.model ++ "\"",
   "description: \"" ++ orDefault m.description "Robot registered via RCAN protocol" ++ "\"",
   "status: \"" ++ (if m.status = some "offline" then "retired" else "active") ++ "\"",
   ""] ++
  linkLines m.links ++ [""] ++
  specLines m.specs ++
  ownerLines m.owner ++
  ["ruri: \"" ++ jsStr m.ruri ++ "\"",
   "",
   "submitted_by: \"rcan-auto-sync\"",
   "submitted_date: \"" ++ today ++ "\"",
   "tags:"] ++
  (yamlTags m).map (fun t => "  - \"" ++ t ++ "\"")

/-- `manifestToYaml` (`part_002` lines 204–260): `lines.join('\n') + '\n'`. -/
def manifestToYaml (m : ManifestJson) (rrn : String) (today : String) : String :=
  joinLines (yamlLines m rrn today) ++ "\n"

/-! ### The record store

The robots directory is modelled as an association list of file names and file
contents, in directory-listing order; `fs.writeFileSync` truncates an existing file in
place or creates a new one. -/

/-- The robots directory: file names with contents. -/
abbrev Store := List (String × String)

/-- `fs.readdirSync`. -/
def readdirNames (s : Store) : List String := s.map Prod.fst

/-- The anchored file-name pattern `RRN-\d{8}\.yaml` of `getNextRRN`
(`part_002` line 265). -/
def isRRNYamlName (n : String) : Bool :=
  let l := n.data
  l.length == 17 && decide (l.take 4 = "RRN-".data) &&
    ((l.drop 4).take 8).all isDigitChar && decide (l.drop 12 = ".yaml".data)

/-- The numeric suffix extracted by `f.match(/RRN-(\d{8})\.yaml/)?.[1]` followed by
`parseInt` — on a name that passed the anchored filter, the unanchored match captures
exactly characters 4–11. -/
def rrnSuffix (n : String) : Nat := digitsToNat ((n.data.drop 4).take 8)

/-- The `maxRRN` computation of `getNextRRN`:
`rrns.length > 0 ? Math.max(...rrns) : 0`. -/
def maxRRN (rrns : List Nat) : Nat :=
  match rrns with
  | [] => 0
  | _ => rrns.foldl Nat.max 0

/-- `getNextRRN` (`part_002` lines 262–271). -/
def getNextRRN (store : Store) : String :=
  "RRN-" ++
    ⟨padStart8 (natToChars
      (maxRRN (((readdirNames store).filter isRRNYamlName).map rrnSuffix) + 1))⟩

/-- The search string `ruri: "${ruri}"` of `findExistingByRURI`. -/
def ruriNeedle (ruri : String) : List Char := ("ruri: \"" ++ ruri ++ "\"").data

/-- `findExistingByRURI` (`part_002` lines 273–284): first `.yaml` file whose content
contains `ruri: "${ruri}"`; the record name is `file.replace('.yaml', '')`. -/
def findExistingByRURI (store : Store) (ruri : String) : Option String :=
  match (store.filter fun f => endsWithList ".yaml".data f.1.data).find?
        (fun f => isSubstr (ruriNeedle ruri) f.2.data) with
  | some f => some ⟨replaceFirst ".yaml".data [] f.1.data⟩
  | none => none

/-- `fs.writeFileSync` on the store. -/
def writeFileSync (store : Store) (name content : String) : Store :=
  if (readdirNames store).contains name then
    store.map fun f => if f.1 = name then (name, content) else f
  else store ++ [(name, content)]

/-- `const rrn = existingRRN || getNextRRN(robotsDir)` — the empty record name (from a
file called exactly `.yaml`) is falsy. -/
def chooseRRN (store : Store) (ruri : String) : String :=
  match findExistingByRURI store ruri with
  | some s => if s = "" then getNextRRN store else s
  | none => getNextRRN store

/-- The observable outcome of one `syncRURI` call: the resulting directory, the record
identifier that was chosen (if the pipeline reached reconciliation), whether a write
happened, and the YAML content that was produced. -/
structure SyncResult where
  store : Store
  rrn : Option String
  wrote : Bool
  yaml : Option String
deriving DecidableEq, Repr

/-- `syncRURI` (`part_002` lines 286–325).  The network fetch is passed in as
`fetched` (`none` models a thrown `fetchManifest` error, which the `catch` turns into
a log line and no further action); `today` models `new Date().toISOString().
split('T')[0]`. -/
def syncRURI (ruri : String) (store : Store) (dryRun : Bool)
    (fetched : Option ManifestJson) (today : String) : SyncResult :=
  match syncParseRURI ruri with
  | none => ⟨store, none, false, none⟩
  | some _ =>
    match fetched with
    | none => ⟨store, none, false, none⟩
    | some manifest =>
      if dryRun then
        ⟨store, some (chooseRRN store ruri), false,
         some (manifestToYaml manifest (chooseRRN store ruri) today)⟩
      else
        ⟨writeFileSync store (chooseRRN store ruri ++ ".yaml")
           (manifestToYaml manifest (chooseRRN store ruri) today),
         some (chooseRRN store ruri), true,
         some (manifestToYaml manifest (chooseRRN store ruri) today)⟩

/-! ### Predicates used in the statements of the properties -/

/-- The "syntactically valid component set" of spec §8: every component matches its
grammar production and the port, when present, is in range. -/
def partsValid (p : RURIParts) : Bool :=
  segOK isAuthChar p.registry.data && segOK isSlugChar p.manufacturer.data &&
  segOK isSlugChar p.model.data && deviceOK p.deviceId.data &&
  (match p.port with
   | some n => 1 ≤ n && n ≤ 65535
   | none => true) &&
  (match p.capability with
   | some c => capSeg c.data
   | none => true)

/-- Case-insensitive equality of two optional strings. -/
def optCaseEq (a b : Option String) : Bool :=
  match a, b with
  | none, none => true
  | some x, some y => listCaseEq x.data y.data
  | _, _ => false

/-- Is `f` a `.yaml` file whose content contains `ruri: "${ruri}"` — i.e. a record
that `findExistingByRURI` counts as belonging to the source identifier `ruri`? -/
def yamlFileHasRuri (ruri : String) (f : String × String) : Bool :=
  endsWithList ".yaml".data f.1.data && isSubstr (ruriNeedle ruri) f.2.data

/-- Number of records in the store belonging to the source identifier `ruri`. -/
def recordCount (store : Store) (ruri : String) : Nat :=
  (store.filter (yamlFileHasRuri ruri)).length

/-- A well-formed robots directory: distinct file names, each of the canonical shape
`RRN-\d{8}.yaml`. -/
def WfStore (store : Store) : Prop :=
  (readdirNames store).Nodup ∧ ∀ f ∈ store, isRRNYamlName f.1 = true

instance : DecidablePred WfStore := fun _ => by
  unfold WfStore; infer_instance

/-! ## Lemmas

### Characters -/

theorem char_toNat_inj {c d : Char} (h : c.toNat = d.toNat) : c = d := by
  unfold Char.toNat at h
  exact Char.eq_of_val_eq (UInt32.toNat.inj h)

theorem caseEq_cases {c d : Char} (h : caseEq c d = true) :
    c = d ∨ (isAsciiLetter c = true ∧ isAsciiLetter d = true ∧
             (c.toNat + 32 = d.toNat ∨ d.toNat + 32 = c.toNat)) := by
  simp only [caseEq, Bool.or_eq_true, Bool.and_eq_true, decide_eq_true_eq] at h
  tauto

theorem caseEq_refl (c : Char) : caseEq c c = true := by
  simp [caseEq]

theorem caseEq_symm {c d : Char} (h : caseEq c d = true) : caseEq d c = true := by
  simp only [caseEq, Bool.or_eq_true, Bool.and_eq_true, decide_eq_true_eq] at h ⊢
  tauto

theorem letter_arith {c : Char} :
    isAsciiLetter c = true ↔
      (65 ≤ c.toNat ∧ c.toNat ≤ 90) ∨ (97 ≤ c.toNat ∧ c.toNat ≤ 122) := by
  simp [isAsciiLetter, Bool.or_eq_true, Bool.and_eq_true, decide_eq_true_eq]

theorem caseEq_fix {c d : Char} (h : caseEq c d = true)
    (hc : isAsciiLetter c = false) : c = d := by
  rcases caseEq_cases h with h | ⟨h1, _, _⟩
  · exact h
  · rw [hc] at h1; cases h1

theorem caseEq_fix' {c d : Char} (h : caseEq c d = true)
    (hd : isAsciiLetter d = false) : c = d := by
  exact (caseEq_fix (caseEq_symm h) hd).symm

theorem caseEq_isAsciiLetter {c d : Char} (h : caseEq c d = true) :
    isAsciiLetter c = isAsciiLetter d := by
  rcases caseEq_cases h with h | ⟨h1, h2, _⟩
  · rw [h]
  · rw [h1, h2]

theorem caseEq_isDigitChar {c d : Char} (h : caseEq c d = true) :
    isDigitChar c = isDigitChar d := by
  rcases caseEq_cases h with h | ⟨h1, h2, _⟩
  · rw [h]
  · rw [letter_arith] at h1 h2
    rw [Bool.eq_iff_iff]
    simp only [isDigitChar, Bool.and_eq_true, decide_eq_true_eq]
    omega

theorem caseEq_isHexChar {c d : Char} (h : caseEq c d = true) :
    isHexChar c = isHexChar d := by
  rcases caseEq_cases h with h | ⟨h1, h2, h3⟩
  · rw [h]
  · rw [letter_arith] at h1 h2
    rw [Bool.eq_iff_iff]
    simp only [isHexChar, isDigitChar, Bool.or_eq_true, Bool.and_eq_true,
      decide_eq_true_eq]
    omega

theorem char_eq_dot_arith {c : Char} : c = '.' ↔ c.toNat = 46 := by
  constructor
  · rintro rfl; rfl
  · exact fun h => char_toNat_inj h

theorem char_eq_dash_arith {c : Char} : c = '-' ↔ c.toNat = 45 := by
  constructor
  · rintro rfl; rfl
  · exact fun h => char_toNat_inj h

theorem char_eq_slash_arith {c : Char} : c = '/' ↔ c.toNat = 47 := by
  constructor
  · rintro rfl; rfl
  · exact fun h => char_toNat_inj h

theorem caseEq_isAlnum {c d : Char} (h : caseEq c d = true) :
    isAlnum c = isAlnum d := by
  simp only [isAlnum, caseEq_isAsciiLetter h, caseEq_isDigitChar h]

theorem caseEq_isAuthChar {c d : Char} (h : caseEq c d = true) :
    isAuthChar c = isAuthChar d := by
  rcases caseEq_cases h with heq | ⟨h1, h2, h3⟩
  · rw [heq]
  · have e1 := caseEq_isAlnum h
    rw [letter_arith] at h1 h2
    have hdot : (c = '.') ↔ (d = '.') := by
      rw [char_eq_dot_arith, char_eq_dot_arith]
      rcases h3 with h3 | h3 <;> omega
    have hdash : (c = '-') ↔ (d = '-') := by
      rw [char_eq_dash_arith, char_eq_dash_arith]
      rcases h3 with h3 | h3 <;> omega
    rw [Bool.eq_iff_iff]
    simp only [isAuthChar, Bool.or_eq_true, decide_eq_true_eq, e1, hdot, hdash]

theorem caseEq_isSlugChar {c d : Char} (h : caseEq c d = true) :
    isSlugChar c = isSlugChar d := by
  rcases caseEq_cases h with heq | ⟨h1, h2, h3⟩
  · rw [heq]
  · have e1 := caseEq_isAlnum h
    rw [letter_arith] at h1 h2
    have hdash : (c = '-') ↔ (d = '-') := by
      rw [char_eq_dash_arith, char_eq_dash_arith]
      rcases h3 with h3 | h3 <;> omega
    rw [Bool.eq_iff_iff]
    simp only [isSlugChar, Bool.or_eq_true, decide_eq_true_eq, e1, hdash]

theorem caseEq_isCapChar {c d : Char} (h : caseEq c d = true) :
    isCapChar c = isCapChar d := by
  rcases caseEq_cases h with heq | ⟨h1, h2, h3⟩
  · rw [heq]
  · have e1 := caseEq_isAlnum h
    rw [letter_arith] at h1 h2
    have hdash : (c = '-') ↔ (d = '-') := by
      rw [char_eq_dash_arith, char_eq_dash_arith]
      rcases h3 with h3 | h3 <;> omega
    have hslash : (c = '/') ↔ (d = '/') := by
      rw [char_eq_slash_arith, char_eq_slash_arith]
      rcases h3 with h3 | h3 <;> omega
    rw [Bool.eq_iff_iff]
    simp only [isCapChar, Bool.or_eq_true, decide_eq_true_eq, e1, hslash, hdash]

theorem char_eq_space_arith {c : Char} : c = ' ' ↔ c.toNat = 32 := by
  constructor
  · rintro rfl; rfl
  · exact fun h => char_toNat_inj h

theorem char_eq_tab_arith {c : Char} : c = '\t' ↔ c.toNat = 9 := by
  constructor
  · rintro rfl; rfl
  · exact fun h => char_toNat_inj h

theorem char_eq_lf_arith {c : Char} : c = '\n' ↔ c.toNat = 10 := by
  constructor
  · rintro rfl; rfl
  · exact fun h => char_toNat_inj h

theorem char_eq_cr_arith {c : Char} : c = '\r' ↔ c.toNat = 13 := by
  constructor
  · rintro rfl; rfl
  · exact fun h => char_toNat_inj h

theorem letter_not_ws {c : Char} (hc : isAsciiLetter c = true) : isJsWs c = false := by
  rw [letter_arith] at hc
  rw [Bool.eq_false_iff]
  intro hw
  simp only [isJsWs, Bool.or_eq_true, decide_eq_true_eq, char_eq_space_arith,
    char_eq_tab_arith, char_eq_lf_arith, char_eq_cr_arith] at hw
  omega

theorem caseEq_isJsWs {c d : Char} (h : caseEq c d = true) :
    isJsWs c = isJsWs d := by
  rcases caseEq_cases h with heq | ⟨h1, h2, h3⟩
  · rw [heq]
  · rw [letter_not_ws h1, letter_not_ws h2]

theorem caseEq_digit_eq {c d : Char} (h : caseEq c d = true)
    (hc : isDigitChar c = true) : c = d := by
  apply caseEq_fix h
  simp only [isDigitChar, Bool.and_eq_true, decide_eq_true_eq] at hc
  rw [Bool.eq_false_iff]
  intro hl
  rw [letter_arith] at hl
  omega

/-! ### List primitives -/

theorem startsWithList_append (p r : List Char) : startsWithList p (p ++ r) = true := by
  induction p with
  | nil => rfl
  | cons a p' ih => simp [startsWithList, ih]

theorem startsWithList_iff {p l : List Char} :
    startsWithList p l = true ↔ ∃ r, l = p ++ r := by
  induction p generalizing l with
  | nil => simp [startsWithList]
  | cons a p' ih =>
    cases l with
    | nil => simp [startsWithList]
    | cons b l' =>
      simp only [startsWithList, Bool.and_eq_true, decide_eq_true_eq, ih]
      constructor
      · rintro ⟨rfl, r, rfl⟩; exact ⟨r, rfl⟩
      · rintro ⟨r, hr⟩
        rw [List.cons_append] at hr
        cases hr
        exact ⟨rfl, r, rfl⟩

theorem isSubstr_nil (h : List Char) : isSubstr [] h = true := by
  cases h <;> simp [isSubstr, startsWithList]

theorem isSubstr_self_append (n r : List Char) : isSubstr n (n ++ r) = true := by
  cases n with
  | nil => exact isSubstr_nil r
  | cons a t =>
    have h := startsWithList_append (a :: t) r
    rw [List.cons_append] at h
    simp only [List.cons_append, isSubstr, Bool.or_eq_true]
    exact Or.inl h

theorem isSubstr_append_right {n b : List Char} (a : List Char)
    (h : isSubstr n b = true) : isSubstr n (a ++ b) = true := by
  induction a with
  | nil => exact h
  | cons c a' ih => simp [isSubstr, ih]

theorem startsWithList_extend {n a : List Char} (b : List Char)
    (h : startsWithList n a = true) : startsWithList n (a ++ b) = true := by
  rcases startsWithList_iff.mp h with ⟨r, rfl⟩
  rw [List.append_assoc]
  exact startsWithList_append _ _

theorem isSubstr_append_left {n a : List Char} (b : List Char)
    (h : isSubstr n a = true) : isSubstr n (a ++ b) = true := by
  induction a with
  | nil =>
    simp only [isSubstr, List.isEmpty_iff] at h
    subst h
    exact isSubstr_nil b
  | cons c a' ih =>
    simp only [isSubstr, Bool.or_eq_true] at h ⊢
    rcases h with h | h
    · exact Or.inl (startsWithList_extend b h)
    · exact Or.inr (ih h)

theorem endsWithList_append (a suf : List Char) : endsWithList suf (a ++ suf) = true := by
  unfold endsWithList
  rw [List.reverse_append]
  exact startsWithList_append _ _

theorem replaceFirst_cons_neg {pat rep : List Char} {c : Char} {t : List Char}
    (h : startsWithList pat (c :: t) = false) :
    replaceFirst pat rep (c :: t) = c :: replaceFirst pat rep t := by
  simp only [replaceFirst, h]
  simp

theorem replaceFirst_match {x : Char} {p' rep b : List Char} :
    replaceFirst (x :: p') rep ((x :: p') ++ b) = rep ++ b := by
  have h : startsWithList (x :: p') ((x :: p') ++ b) = true := startsWithList_append _ _
  rw [List.cons_append] at h ⊢
  simp only [replaceFirst, h, if_true]
  congr 1
  show (x :: (p' ++ b)).drop (p'.length + 1) = b
  rw [List.drop_succ_cons]
  exact List.drop_left p' b

theorem replaceFirst_boundary {p' a b rep : List Char}
    (ha : ∀ c ∈ a, c ≠ '.') :
    replaceFirst ('.' :: p') rep (a ++ '.' :: p' ++ b) = a ++ rep ++ b := by
  induction a with
  | nil =>
    simpa using @replaceFirst_match '.' p' rep b
  | cons c a' ih =>
    have hc : c ≠ '.' := ha c (List.mem_cons_self c a')
    have hs : startsWithList ('.' :: p') (c :: (a' ++ '.' :: p' ++ b)) = false := by
      rw [Bool.eq_false_iff]
      intro hT
      rw [startsWithList] at hT
      simp only [Bool.and_eq_true, decide_eq_true_eq] at hT
      exact hc hT.1.symm
    have ih' := ih fun x hx => ha x (List.mem_cons_of_mem c hx)
    simp only [List.cons_append] at hs ih' ⊢
    rw [replaceFirst_cons_neg hs, ih']

theorem dropWhile_cons_false {p : Char → Bool} {c : Char} {l : List Char}
    (h : p c = false) : (c :: l).dropWhile p = c :: l := by
  simp [List.dropWhile, h]

theorem dropWhile_ws_append {w x : List Char} {p : Char → Bool}
    (hw : ∀ c ∈ w, p c = true) : (w ++ x).dropWhile p = x.dropWhile p := by
  induction w with
  | nil => rfl
  | cons c w' ih =>
    have hc : p c = true := hw c (List.mem_cons_self c w')
    simp only [List.cons_append, List.dropWhile, hc]
    exact ih fun a ha => hw a (List.mem_cons_of_mem c ha)

theorem dropWhile_append_of_ne_nil {l x : List Char} {p : Char → Bool}
    (h : l.dropWhile p ≠ []) : (l ++ x).dropWhile p = l.dropWhile p ++ x := by
  induction l with
  | nil => simp at h
  | cons c l' ih =>
    by_cases hc : p c = true
    · simp only [List.dropWhile, hc] at h ⊢
      exact ih h
    · rw [Bool.not_eq_true] at hc
      simp only [List.cons_append, List.dropWhile, hc]
      rfl

theorem jsTrim_eq_self {l : List Char} (h : ∀ c ∈ l, isJsWs c = false) :
    jsTrim l = l := by
  unfold jsTrim
  have h1 : l.dropWhile isJsWs = l := by
    cases l with
    | nil => rfl
    | cons c t => exact dropWhile_cons_false (h c (List.mem_cons_self c t))
  rw [h1]
  have h2 : l.reverse.dropWhile isJsWs = l.reverse := by
    cases hl : l.reverse with
    | nil => rfl
    | cons c t =>
      have : c ∈ l := by
        rw [← List.mem_reverse, hl]
        exact List.mem_cons_self c t
      rw [← hl]
      rw [hl]
      exact dropWhile_cons_false (h c this)
  rw [h2, List.reverse_reverse]

theorem jsTrim_pad {w₁ w₂ l : List Char}
    (hw₁ : ∀ c ∈ w₁, isJsWs c = true) (hw₂ : ∀ c ∈ w₂, isJsWs c = true) :
    jsTrim (w₁ ++ l ++ w₂) = jsTrim l := by
  unfold jsTrim
  rw [List.append_assoc, dropWhile_ws_append hw₁]
  by_cases hd : l.dropWhile isJsWs = []
  · have hall : ∀ c ∈ l, isJsWs c = true := by
      rw [← List.dropWhile_eq_nil_iff]
      exact hd
    rw [dropWhile_ws_append hall, hd]
    have : w₂.dropWhile isJsWs = [] := List.dropWhile_eq_nil_iff.mpr hw₂
    rw [this]
  · rw [dropWhile_append_of_ne_nil hd, List.reverse_append]
    rw [dropWhile_ws_append (by simpa using hw₂)]

theorem listCaseEq_iff {a b : List Char} :
    listCaseEq a b = true ↔ List.Forall₂ (fun c d => caseEq c d = true) a b := by
  induction a generalizing b with
  | nil =>
    cases b <;> simp [listCaseEq]
  | cons c a' ih =>
    cases b with
    | nil => simp [listCaseEq]
    | cons d b' =>
      simp only [listCaseEq, List.zip_cons_cons, List.all_cons, List.length_cons,
        Bool.and_eq_true, beq_iff_eq, Nat.succ.injEq, List.forall₂_cons] at *
      constructor
      · rintro ⟨hlen, hc, hrest⟩
        exact ⟨hc, ih.mp ⟨hlen, hrest⟩⟩
      · rintro ⟨hc, hrest⟩
        have := ih.mpr hrest
        simp only [listCaseEq, Bool.and_eq_true, beq_iff_eq] at this
        exact ⟨this.1, hc, this.2⟩

/-! ### Decimal rendering -/

theorem digitVal_digitChar {d : Nat} (h : d < 10) : digitVal (digitChar d) = d := by
  interval_cases d <;> rfl

theorem isDigitChar_digitChar (d : Nat) : isDigitChar (digitChar d) = true := by
  unfold digitChar
  split <;> rfl

theorem foldr_digits_ofDigits (ds : List Nat) :
    ds.foldr (fun d a => 10 * a + d) 0 = Nat.ofDigits 10 ds := by
  induction ds with
  | nil => rfl
  | cons d L ih =>
    simp only [List.foldr_cons, ih, Nat.ofDigits_cons]
    omega

theorem foldr_digitVal_eq {ds : List Nat} (h : ∀ d ∈ ds, d < 10) :
    ds.foldr (fun d a => 10 * a + digitVal (digitChar d)) 0 =
      ds.foldr (fun d a => 10 * a + d) 0 := by
  induction ds with
  | nil => rfl
  | cons d L ih =>
    simp only [List.foldr_cons]
    rw [ih fun x hx => h x (List.mem_cons_of_mem d hx),
      digitVal_digitChar (h d (List.mem_cons_self d L))]

theorem natToCharsAux_eq {fuel n : Nat} (h : n ≤ fuel) :
    natToCharsAux fuel n = ((Nat.digits 10 n).map digitChar).reverse := by
  induction fuel generalizing n with
  | zero =>
    have h0 : n = 0 := by omega
    subst h0
    simp [natToCharsAux]
  | succ f ih =>
    by_cases h0 : n = 0
    · subst h0
      simp [natToCharsAux]
    · unfold natToCharsAux
      rw [if_neg h0]
      have hdiv : n / 10 ≤ f := by
        have := Nat.div_lt_self (Nat.pos_of_ne_zero h0) (by norm_num : 1 < 10)
        omega
      rw [ih hdiv, Nat.digits_def' (by norm_num : 1 < 10) (Nat.pos_of_ne_zero h0)]
      simp

theorem natToChars_eq (n : Nat) :
    natToChars n = if n = 0 then ['0'] else ((Nat.digits 10 n).map digitChar).reverse := by
  unfold natToChars
  by_cases h0 : n = 0
  · rw [if_pos h0, if_pos h0]
  · rw [if_neg h0, if_neg h0, natToCharsAux_eq le_rfl]

theorem digitsToNat_natToChars (n : Nat) : digitsToNat (natToChars n) = n := by
  rw [natToChars_eq]
  by_cases h0 : n = 0
  · subst h0; rfl
  · rw [if_neg h0]
    unfold digitsToNat
    rw [List.foldl_reverse, List.foldr_map]
    have hlt : ∀ d ∈ Nat.digits 10 n, d < 10 := fun d hd =>
      Nat.digits_lt_base (by norm_num) hd
    rw [foldr_digitVal_eq hlt, foldr_digits_ofDigits, Nat.ofDigits_digits]

theorem natToChars_all_digits (n : Nat) : (natToChars n).all isDigitChar = true := by
  rw [natToChars_eq]
  by_cases h0 : n = 0
  · subst h0; rfl
  · rw [if_neg h0]
    simp only [List.all_eq_true, List.mem_reverse, List.mem_map]
    rintro c ⟨d, _, rfl⟩
    exact isDigitChar_digitChar d

theorem natToChars_ne_nil (n : Nat) : natToChars n ≠ [] := by
  rw [natToChars_eq]
  by_cases h0 : n = 0
  · subst h0; simp
  · rw [if_neg h0]
    simp only [ne_eq, List.reverse_eq_nil_iff, List.map_eq_nil_iff]
    exact Nat.digits_ne_nil_iff_ne_zero.mpr h0

theorem natToChars_len_le {n : Nat} (h : n ≤ 99999) : (natToChars n).length ≤ 5 := by
  rw [natToChars_eq]
  by_cases h0 : n = 0
  · subst h0; simp
  · rw [if_neg h0]
    simp only [List.length_reverse, List.length_map]
    rw [Nat.digits_len 10 n (by norm_num) h0]
    have : Nat.log 10 n < 5 := Nat.log_lt_of_lt_pow h0 (by omega)
    omega

/-! ### Matcher step lemmas -/

theorem listCaseEq_length {a b : List Char} (h : listCaseEq a b = true) :
    a.length = b.length := by
  simp only [listCaseEq, Bool.and_eq_true, beq_iff_eq] at h
  exact h.1

theorem listCaseEq_refl (a : List Char) : listCaseEq a a = true := by
  rw [listCaseEq_iff]
  induction a with
  | nil => exact List.Forall₂.nil
  | cons c t ih => exact List.Forall₂.cons (caseEq_refl c) ih

theorem schemeOK_sound {l r : List Char} (h : schemeOK l = some r) :
    l = l.take 7 ++ r ∧ listCaseEq (l.take 7) "rcan://".data = true ∧ r = l.drop 7 := by
  unfold schemeOK at h
  by_cases hc : listCaseEq (l.take 7) "rcan://".data = true
  · rw [if_pos hc] at h
    cases h
    exact ⟨(List.take_append_drop 7 l).symm, hc, rfl⟩
  · rw [if_neg hc] at h; cases h

theorem schemeOK_complete {sch rest : List Char}
    (h : listCaseEq sch "rcan://".data = true) : schemeOK (sch ++ rest) = some rest := by
  have hlen : sch.length = 7 := listCaseEq_length h
  unfold schemeOK
  rw [List.take_left' hlen, List.drop_left' hlen, if_pos h]

theorem splitFirst_sound {sep : Char} {l a r : List Char}
    (h : splitFirst sep l = some (a, r)) :
    l = a ++ sep :: r ∧ ∀ c ∈ a, c ≠ sep := by
  induction l generalizing a with
  | nil => cases h
  | cons c rest ih =>
    unfold splitFirst at h
    by_cases hc : c = sep
    · rw [if_pos hc] at h
      cases h
      subst hc
      exact ⟨rfl, by simp⟩
    · rw [if_neg hc] at h
      cases hs : splitFirst sep rest with
      | none => rw [hs] at h; cases h
      | some p =>
        rw [hs] at h
        simp only [Option.map_some', Option.some.injEq] at h
        cases h
        obtain ⟨h1, h2⟩ := ih hs
        refine ⟨by rw [List.cons_append, ← h1], ?_⟩
        intro x hx
        rcases List.mem_cons.mp hx with rfl | hx
        · exact hc
        · exact h2 x hx

theorem splitFirst_complete {sep : Char} {a r : List Char}
    (ha : ∀ c ∈ a, c ≠ sep) : splitFirst sep (a ++ sep :: r) = some (a, r) := by
  induction a with
  | nil =>
    rw [List.nil_append]
    unfold splitFirst
    rw [if_pos rfl]
  | cons c a' ih =>
    have hc : c ≠ sep := ha c (List.mem_cons_self c a')
    rw [List.cons_append]
    unfold splitFirst
    rw [if_neg hc, ih fun x hx => ha x (List.mem_cons_of_mem c hx)]
    rfl

theorem segTail_chars {mid : Char → Bool} {l : List Char} (h : segTail mid l = true) :
    ∀ c ∈ l, isAlnum c = true ∨ mid c = true := by
  induction l with
  | nil => simp
  | cons c rest ih =>
    intro x hx
    cases rest with
    | nil =>
      simp only [segTail] at h
      rcases List.mem_singleton.mp (by simpa using hx) with rfl
      exact Or.inl h
    | cons c2 t2 =>
      simp only [segTail, Bool.and_eq_true] at h
      rcases List.mem_cons.mp hx with rfl | hx
      · exact Or.inr h.1
      · exact ih h.2 x hx

theorem segOK_chars {mid : Char → Bool} {l : List Char} (h : segOK mid l = true) :
    ∀ c ∈ l, isAlnum c = true ∨ mid c = true := by
  cases l with
  | nil => simp
  | cons c rest =>
    simp only [segOK, Bool.and_eq_true] at h
    intro x hx
    rcases List.mem_cons.mp hx with rfl | hx
    · exact Or.inl h.1
    · exact segTail_chars h.2 x hx

theorem segOK_ne_slash {mid : Char → Bool} {l : List Char}
    (hmid : mid '/' = false) (h : segOK mid l = true) : ∀ c ∈ l, c ≠ '/' := by
  intro c hc heq
  subst heq
  rcases segOK_chars h _ hc with h' | h'
  · exact absurd h' (by decide)
  · rw [hmid] at h'; cases h'

theorem segOK_ne_nil {mid : Char → Bool} {l : List Char} (h : segOK mid l = true) :
    l ≠ [] := by
  cases l with
  | nil => cases h
  | cons c t => simp

theorem uuidTail_len {t : List Char} (h : uuidTail t = true) : t.length = 28 := by
  simp only [uuidTail, Bool.and_eq_true, beq_iff_eq] at h
  tauto

theorem uuidTail_take_false {rest : List Char}
    (h : rest = [] ∨ ∃ c t, rest = c :: t ∧ c ≠ '-') :
    uuidTail (rest.take 28) = false := by
  rcases h with rfl | ⟨c, t, rfl, hc⟩
  · rfl
  · rw [Bool.eq_false_iff]
    intro hT
    simp only [uuidTail, Bool.and_eq_true, beq_iff_eq] at hT
    have hB : List.take 1 (List.take 28 (c :: t)) = ['-'] := by tauto
    have htake1 : List.take 1 (List.take 28 (c :: t)) = [c] := by
      rw [List.take_take]
      norm_num
    rw [htake1] at hB
    injection hB with h1 _
    exact hc h1

theorem matchDevice_sound {l d r : List Char} (h : matchDevice l = some (d, r)) :
    l = d ++ r ∧ deviceOK d = true := by
  unfold matchDevice at h
  by_cases h8 : ((l.take 8).length == 8 && (l.take 8).all isHexChar) = true
  · rw [if_pos h8] at h
    simp only [Bool.and_eq_true, beq_iff_eq] at h8
    by_cases hu : uuidTail ((l.drop 8).take 28) = true
    · rw [if_pos hu] at h
      cases h
      have hl28 : ((l.drop 8).take 28).length = 28 := uuidTail_len hu
      have hge : 28 ≤ (l.drop 8).length := by
        rw [List.length_take] at hl28; omega
      have hlen : 36 ≤ l.length := by
        rw [List.length_drop] at hge; omega
      constructor
      · exact (List.take_append_drop 36 l).symm
      · have h36 : (l.take 36).length = 36 := by
          rw [List.length_take]; omega
        have htt : (l.take 36).take 8 = l.take 8 := by
          rw [List.take_take]; norm_num
        have htd : (l.take 36).drop 8 = (l.drop 8).take 28 := by
          rw [List.drop_take]
        unfold deviceOK
        rw [Bool.or_eq_true]
        right
        rw [Bool.and_eq_true, Bool.and_eq_true]
        refine ⟨⟨?_, ?_⟩, ?_⟩
        · rw [beq_iff_eq]; exact h36
        · rw [htt]; exact h8.2
        · rw [htd]; exact hu
    · rw [if_neg hu] at h
      cases h
      constructor
      · exact (List.take_append_drop 8 l).symm
      · unfold deviceOK
        rw [Bool.or_eq_true]
        left
        rw [Bool.and_eq_true]
        exact ⟨beq_iff_eq.mpr h8.1, h8.2⟩
  · rw [if_neg h8] at h; cases h

theorem matchDevice_complete {d rest : List Char} (hd : deviceOK d = true)
    (hrest : rest = [] ∨ ∃ c t, rest = c :: t ∧ c ≠ '-') :
    matchDevice (d ++ rest) = some (d, rest) := by
  unfold deviceOK at hd
  simp only [Bool.or_eq_true, Bool.and_eq_true, beq_iff_eq] at hd
  unfold matchDevice
  rcases hd with ⟨h8, hhex⟩ | ⟨⟨h36, hhex⟩, hu⟩
  · have ht : (d ++ rest).take 8 = d := List.take_left' h8
    have hdr : (d ++ rest).drop 8 = rest := List.drop_left' h8
    have hfalse : uuidTail (rest.take 28) = false := uuidTail_take_false hrest
    rw [ht, hdr, hfalse, if_pos, if_neg]
    · exact Bool.false_ne_true
    · rw [Bool.and_eq_true]
      exact ⟨beq_iff_eq.mpr h8, hhex⟩
  · have hd8 : (d.drop 8).length = 28 := by rw [List.length_drop]; omega
    have ht : (d ++ rest).take 8 = d.take 8 := List.take_append_of_le_length (by omega)
    have hdr : (d ++ rest).drop 8 = d.drop 8 ++ rest := List.drop_append_of_le_length (by omega)
    have ht28 : (d.drop 8 ++ rest).take 28 = d.drop 8 := List.take_left' hd8
    have ht36 : (d ++ rest).take 36 = d := List.take_left' h36
    have hd36 : (d ++ rest).drop 36 = rest := List.drop_left' h36
    have hlen8 : (d.take 8).length = 8 := by rw [List.length_take]; omega
    rw [ht, hdr, ht28, ht36, hd36, if_pos, if_pos hu]
    rw [Bool.and_eq_true]
    exact ⟨beq_iff_eq.mpr hlen8, hhex⟩

theorem takeWhile_self_append (p : Char → Bool) (l : List Char) :
    l = l.takeWhile p ++ l.drop (l.takeWhile p).length := by
  induction l with
  | nil => rfl
  | cons c t ih =>
    by_cases hc : p c = true
    · simp only [List.takeWhile_cons, hc, if_true, List.length_cons,
        List.drop_succ_cons, List.cons_append]
      exact congrArg (c :: ·) ih
    · rw [Bool.not_eq_true] at hc
      simp [List.takeWhile_cons, hc]

theorem matchPort_sound {l : List Char} {p : Option (List Char)} {r : List Char}
    (h : matchPort l = some (p, r)) :
    l = portChars p ++ r ∧ portCapOK p = true := by
  unfold matchPort at h
  split at h
  next rest =>
    set ds := rest.takeWhile isDigitChar with hds
    by_cases hg : ds.length = 0 ∨ ds.length > 5
    · rw [if_pos hg] at h; cases h
    · rw [if_neg hg] at h
      cases h
      rw [not_or] at hg
      constructor
      · show ':' :: rest = ':' :: ds ++ rest.drop ds.length
        rw [List.cons_append]
        exact congrArg (':' :: ·) (takeWhile_self_append isDigitChar rest)
      · show portCapOK (some ds) = true
        unfold portCapOK
        simp only [Bool.and_eq_true, decide_eq_true_eq, List.all_eq_true]
        refine ⟨⟨by omega, by omega⟩, ?_⟩
        intro c hc
        exact List.mem_takeWhile_imp hc
  next hne =>
    cases h
    exact ⟨rfl, rfl⟩

theorem takeWhile_digits_append {ds rest : List Char}
    (hds : ∀ c ∈ ds, isDigitChar c = true)
    (hrest : rest = [] ∨ ∃ c t, rest = c :: t ∧ isDigitChar c = false) :
    (ds ++ rest).takeWhile isDigitChar = ds := by
  induction ds with
  | nil =>
    rcases hrest with rfl | ⟨c, t, rfl, hc⟩
    · rfl
    · simp [List.takeWhile_cons, hc]
  | cons c t ih =>
    have hc : isDigitChar c = true := hds c (List.mem_cons_self c t)
    simp only [List.cons_append, List.takeWhile_cons, hc, if_true]
    rw [ih fun x hx => hds x (List.mem_cons_of_mem c hx)]

theorem matchPort_complete_some {ds rest : List Char}
    (h1 : 1 ≤ ds.length) (h5 : ds.length ≤ 5)
    (hds : ∀ c ∈ ds, isDigitChar c = true)
    (hrest : rest = [] ∨ ∃ c t, rest = c :: t ∧ isDigitChar c = false) :
    matchPort (':' :: (ds ++ rest)) = some (some ds, rest) := by
  show (if ((ds ++ rest).takeWhile isDigitChar).length = 0 ∨
           ((ds ++ rest).takeWhile isDigitChar).length > 5
        then none
        else some (some ((ds ++ rest).takeWhile isDigitChar),
                   (ds ++ rest).drop ((ds ++ rest).takeWhile isDigitChar).length)) =
      some (some ds, rest)
  rw [takeWhile_digits_append hds hrest]
  rw [if_neg (by omega)]
  rw [List.drop_left]

theorem matchPort_not_colon {l : List Char}
    (h : l = [] ∨ ∃ c t, l = c :: t ∧ c ≠ ':') :
    matchPort l = some (none, l) := by
  rcases h with rfl | ⟨c, t, rfl, hc⟩
  · rfl
  · unfold matchPort
    split
    next rest heq =>
      injection heq with e1 e2
      exact absurd e1 hc
    next => rfl

/-! ### Full-match soundness and completeness -/

theorem letter_not_digit {c : Char} (h : isAsciiLetter c = true) :
    isDigitChar c = false := by
  rw [letter_arith] at h
  rw [Bool.eq_false_iff]
  intro hd
  simp only [isDigitChar, Bool.and_eq_true, decide_eq_true_eq] at hd
  omega

theorem not_bang {b : Bool} (h : ¬((!b) = true)) : b = true := by
  cases b
  · simp at h
  · rfl

theorem capOK_shape {l : List Char} (h : capOK l = true) :
    ∃ c t, l = c :: t ∧ (c = '/' ∨ isAsciiLetter c = true) := by
  unfold capOK at h
  split at h
  next c rest => exact ⟨'/', c :: rest, rfl, Or.inl rfl⟩
  next c rest heq =>
    rw [Bool.and_eq_true] at h
    exact ⟨c, rest, rfl, Or.inr h.1⟩
  next => cases h

theorem capChars_cases {c : Option (List Char)} (hc : capCapOK c = true) :
    capChars c = [] ∨
      ∃ ch t, capChars c = ch :: t ∧ (ch = '/' ∨ isAsciiLetter ch = true) := by
  cases c with
  | none => exact Or.inl rfl
  | some l =>
    obtain ⟨ch, t, hl, hh⟩ := capOK_shape hc
    exact Or.inr ⟨ch, t, hl, hh⟩

theorem capChars_head_ne {c : Option (List Char)} (hc : capCapOK c = true)
    {x : Char} (hslash : x ≠ '/') (hletter : isAsciiLetter x = false) :
    capChars c = [] ∨ ∃ ch t, capChars c = ch :: t ∧ ch ≠ x := by
  rcases capChars_cases hc with h | ⟨ch, t, hl, hh⟩
  · exact Or.inl h
  · refine Or.inr ⟨ch, t, hl, ?_⟩
    rcases hh with rfl | hh
    · exact fun he => hslash he.symm
    · rintro rfl
      rw [hletter] at hh
      cases hh

theorem capChars_head_not_digit {c : Option (List Char)} (hc : capCapOK c = true) :
    capChars c = [] ∨ ∃ ch t, capChars c = ch :: t ∧ isDigitChar ch = false := by
  rcases capChars_cases hc with h | ⟨ch, t, hl, hh⟩
  · exact Or.inl h
  · refine Or.inr ⟨ch, t, hl, ?_⟩
    rcases hh with rfl | hh
    · rfl
    · exact letter_not_digit hh

theorem regex_complete {sch : List Char} {caps : RURICaps}
    (hs : listCaseEq sch "rcan://".data = true) (hv : capsOK caps = true) :
    RURI_REGEX_match (assemble sch caps) = some caps := by
  obtain ⟨reg, man, mod, dev, pp, cp⟩ := caps
  unfold capsOK at hv
  simp only [Bool.and_eq_true] at hv
  obtain ⟨⟨⟨⟨⟨hreg, hman⟩, hmod⟩, hdev⟩, hpp⟩, hcp⟩ := hv
  have hregns : ∀ c ∈ reg, c ≠ '/' := segOK_ne_slash (by decide) hreg
  have hmanns : ∀ c ∈ man, c ≠ '/' := segOK_ne_slash (by decide) hman
  have hmodns : ∀ c ∈ mod, c ≠ '/' := segOK_ne_slash (by decide) hmod
  have hdevrest : portChars pp ++ capChars cp = [] ∨
      ∃ c t, portChars pp ++ capChars cp = c :: t ∧ c ≠ '-' := by
    cases pp with
    | some ds => exact Or.inr ⟨':', ds ++ capChars cp, rfl, by decide⟩
    | none =>
      rcases capChars_head_ne hcp (x := '-') (by decide) (by decide) with h | ⟨ch, t, hl, hh⟩
      · left; rw [portChars, List.nil_append, h]
      · right; exact ⟨ch, t, by rw [portChars, List.nil_append, hl], hh⟩
  have hmd := matchDevice_complete hdev hdevrest
  have hmp : matchPort (portChars pp ++ capChars cp) = some (pp, capChars cp) := by
    cases pp with
    | none =>
      apply matchPort_not_colon
      rcases capChars_head_ne hcp (x := ':') (by decide) (by decide) with h | ⟨ch, t, hl, hh⟩
      · left; rw [portChars, List.nil_append, h]
      · right; exact ⟨ch, t, by rw [portChars, List.nil_append, hl], hh⟩
    | some ds =>
      unfold portCapOK at hpp
      simp only [Bool.and_eq_true, decide_eq_true_eq, List.all_eq_true] at hpp
      show matchPort (':' :: ds ++ capChars cp) = some (some ds, capChars cp)
      rw [List.cons_append]
      exact matchPort_complete_some hpp.1.1 hpp.1.2 (fun c hc => hpp.2 c hc)
        (capChars_head_not_digit hcp)
  unfold RURI_REGEX_match assemble
  cases cp with
  | none =>
    simp only [capChars, List.append_nil] at hmd hmp ⊢
    simp [schemeOK_complete hs, splitFirst_complete hregns, splitFirst_complete hmanns,
      splitFirst_complete hmodns, hreg, hman, hmod, hmd, hmp]
  | some l =>
    have hcp' : capOK l = true := hcp
    obtain ⟨ch, t, rfl, _⟩ := capOK_shape hcp'
    simp only [capChars, List.append_nil] at hmd hmp ⊢
    simp [schemeOK_complete hs, splitFirst_complete hregns, splitFirst_complete hmanns,
      splitFirst_complete hmodns, hreg, hman, hmod, hmd, hmp, hcp']

theorem regex_sound {l : List Char} {caps : RURICaps}
    (h : RURI_REGEX_match l = some caps) :
    capsOK caps = true ∧ listCaseEq (l.take 7) "rcan://".data = true ∧
      l = assemble (l.take 7) caps := by
  unfold RURI_REGEX_match at h
  split at h
  · exact absurd h (by simp)
  next r0 hsch =>
  split at h
  · exact absurd h (by simp)
  next pr1 a r1 hsp1 =>
  split at h
  · exact absurd h (by simp)
  next hra =>
  have hreg : segOK isAuthChar a = true := not_bang (by simpa using hra)
  split at h
  · exact absurd h (by simp)
  next pr2 m r2 hsp2 =>
  split at h
  · exact absurd h (by simp)
  next hrm =>
  have hman : segOK isSlugChar m = true := not_bang (by simpa using hrm)
  split at h
  · exact absurd h (by simp)
  next pr3 o r3 hsp3 =>
  split at h
  · exact absurd h (by simp)
  next hro =>
  have hmod : segOK isSlugChar o = true := not_bang (by simpa using hro)
  split at h
  · exact absurd h (by simp)
  next pd d r4 hmd =>
  split at h
  · exact absurd h (by simp)
  next pq p r5 hmp =>
  obtain ⟨hl0, hcs, hr0⟩ := schemeOK_sound hsch
  obtain ⟨he1, hne1⟩ := splitFirst_sound hsp1
  obtain ⟨he2, hne2⟩ := splitFirst_sound hsp2
  obtain ⟨he3, hne3⟩ := splitFirst_sound hsp3
  obtain ⟨he4, hdev⟩ := matchDevice_sound hmd
  obtain ⟨he5, hpp⟩ := matchPort_sound hmp
  split at h
  next hemp =>
    rw [Option.some.injEq] at h
    subst h
    rw [List.isEmpty_iff] at hemp
    subst hemp
    refine ⟨?_, hcs, ?_⟩
    · simp [capsOK, capCapOK, hreg, hman, hmod, hdev, hpp]
    · unfold assemble
      simp only [capChars, List.append_nil]
      conv_lhs => rw [hl0, he1, he2, he3, he4, he5]
      simp [List.append_assoc]
  next hemp =>
  split at h
  next hcap =>
    rw [Option.some.injEq] at h
    subst h
    refine ⟨?_, hcs, ?_⟩
    · simp [capsOK, capCapOK, hreg, hman, hmod, hdev, hpp, hcap]
    · unfold assemble
      simp only [capChars]
      conv_lhs => rw [hl0, he1, he2, he3, he4, he5]
      simp [List.append_assoc]
  next => exact absurd h (by simp)

/-! ### Character membership facts for matched strings -/

theorem not_ws_of_classes {c : Char}
    (h : isAuthChar c = true ∨ isSlugChar c = true ∨ isCapChar c = true ∨
         isHexChar c = true ∨ isDigitChar c = true ∨ isAlnum c = true ∨
         isAsciiLetter c = true) : isJsWs c = false := by
  rw [Bool.eq_false_iff]
  intro hw
  simp only [isAuthChar, isSlugChar, isCapChar, isHexChar, isDigitChar, isAlnum,
    isAsciiLetter, isJsWs, Bool.or_eq_true, Bool.and_eq_true, decide_eq_true_eq,
    char_eq_dot_arith, char_eq_dash_arith, char_eq_slash_arith, char_eq_space_arith,
    char_eq_tab_arith, char_eq_lf_arith, char_eq_cr_arith] at h hw
  omega

theorem uuidTail_chars {t : List Char} (h : uuidTail t = true) :
    ∀ c ∈ t, isHexChar c = true ∨ c = '-' := by
  simp only [uuidTail, Bool.and_eq_true, beq_iff_eq] at h
  obtain ⟨⟨⟨⟨⟨⟨⟨⟨hlen, h1⟩, h2⟩, h3⟩, h4⟩, h5⟩, h6⟩, h7⟩, h8⟩ := h
  unfold hexRun at h2 h4 h6 h8
  simp only [Bool.and_eq_true, beq_iff_eq, List.all_eq_true] at h2 h4 h6 h8
  intro c hc
  have e0 : t = t.take 1 ++ t.drop 1 := (List.take_append_drop 1 t).symm
  have e1 : t.drop 1 = (t.drop 1).take 4 ++ t.drop 5 := by
    conv_lhs => rw [← List.take_append_drop 4 (t.drop 1)]
    rw [List.drop_drop]
  have e2 : t.drop 5 = (t.drop 5).take 1 ++ t.drop 6 := by
    conv_lhs => rw [← List.take_append_drop 1 (t.drop 5)]
    rw [List.drop_drop]
  have e3 : t.drop 6 = (t.drop 6).take 4 ++ t.drop 10 := by
    conv_lhs => rw [← List.take_append_drop 4 (t.drop 6)]
    rw [List.drop_drop]
  have e4 : t.drop 10 = (t.drop 10).take 1 ++ t.drop 11 := by
    conv_lhs => rw [← List.take_append_drop 1 (t.drop 10)]
    rw [List.drop_drop]
  have e5 : t.drop 11 = (t.drop 11).take 4 ++ t.drop 15 := by
    conv_lhs => rw [← List.take_append_drop 4 (t.drop 11)]
    rw [List.drop_drop]
  have e6 : t.drop 15 = (t.drop 15).take 1 ++ t.drop 16 := by
    conv_lhs => rw [← List.take_append_drop 1 (t.drop 15)]
    rw [List.drop_drop]
  have e7 : t.drop 16 = (t.drop 16).take 12 ++ t.drop 28 := by
    conv_lhs => rw [← List.take_append_drop 12 (t.drop 16)]
    rw [List.drop_drop]
  have e8 : t.drop 28 = [] := by
    rw [List.drop_eq_nil_iff]
    omega
  rw [e0, e1, e2, e3, e4, e5, e6, e7, e8] at hc
  rw [h1, h3, h5, h7] at hc
  rcases List.mem_append.mp hc with hc | hc
  · exact Or.inr (List.mem_singleton.mp hc)
  rcases List.mem_append.mp hc with hc | hc
  · exact Or.inl (h2.2 c hc)
  rcases List.mem_append.mp hc with hc | hc
  · exact Or.inr (List.mem_singleton.mp hc)
  rcases List.mem_append.mp hc with hc | hc
  · exact Or.inl (h4.2 c hc)
  rcases List.mem_append.mp hc with hc | hc
  · exact Or.inr (List.mem_singleton.mp hc)
  rcases List.mem_append.mp hc with hc | hc
  · exact Or.inl (h6.2 c hc)
  rcases List.mem_append.mp hc with hc | hc
  · exact Or.inr (List.mem_singleton.mp hc)
  rw [List.append_nil] at hc
  exact Or.inl (h8.2 c hc)

theorem deviceOK_chars {d : List Char} (h : deviceOK d = true) :
    ∀ c ∈ d, isHexChar c = true ∨ c = '-' := by
  unfold deviceOK at h
  simp only [Bool.or_eq_true, Bool.and_eq_true, beq_iff_eq, List.all_eq_true] at h
  intro c hc
  rcases h with ⟨_, hhex⟩ | ⟨⟨_, hhex⟩, hu⟩
  · exact Or.inl (hhex c hc)
  · rw [← List.take_append_drop 8 d] at hc
    rcases List.mem_append.mp hc with hc | hc
    · exact Or.inl (hhex c hc)
    · exact uuidTail_chars hu c hc

theorem capOK_chars {l : List Char} (h : capOK l = true) :
    ∀ c ∈ l, isCapChar c = true ∨ c = '/' ∨ isAsciiLetter c = true := by
  unfold capOK at h
  split at h
  next ch rest =>
    rw [Bool.and_eq_true, List.all_eq_true] at h
    intro c hc
    rcases List.mem_cons.mp hc with rfl | hc
    · exact Or.inr (Or.inl rfl)
    · rcases List.mem_cons.mp hc with rfl | hc
      · exact Or.inr (Or.inr h.1)
      · exact Or.inl (h.2 c hc)
  next ch rest heq =>
    rw [Bool.and_eq_true, List.all_eq_true] at h
    intro c hc
    rcases List.mem_cons.mp hc with rfl | hc
    · exact Or.inr (Or.inr h.1)
    · exact Or.inl (h.2 c hc)
  next => simp at h

theorem assemble_not_ws {sch : List Char} {caps : RURICaps}
    (hsch : ∀ c ∈ sch, isJsWs c = false) (hv : capsOK caps = true) :
    ∀ c ∈ assemble sch caps, isJsWs c = false := by
  obtain ⟨reg, man, mod, dev, pp, cp⟩ := caps
  unfold capsOK at hv
  simp only [Bool.and_eq_true] at hv
  obtain ⟨⟨⟨⟨⟨hreg, hman⟩, hmod⟩, hdev⟩, hpp⟩, hcp⟩ := hv
  intro c hc
  unfold assemble at hc
  simp only [List.append_assoc, List.cons_append] at hc
  rcases List.mem_append.mp hc with hc | hc
  · exact hsch c hc
  rcases List.mem_append.mp hc with hc | hc
  · rcases segOK_chars hreg c hc with h | h
    · exact not_ws_of_classes (Or.inr (Or.inr (Or.inr (Or.inr (Or.inr (Or.inl h))))))
    · exact not_ws_of_classes (Or.inl h)
  rcases List.mem_cons.mp hc with rfl | hc
  · rfl
  rcases List.mem_append.mp hc with hc | hc
  · rcases segOK_chars hman c hc with h | h
    · exact not_ws_of_classes (Or.inr (Or.inr (Or.inr (Or.inr (Or.inr (Or.inl h))))))
    · exact not_ws_of_classes (Or.inr (Or.inl h))
  rcases List.mem_cons.mp hc with rfl | hc
  · rfl
  rcases List.mem_append.mp hc with hc | hc
  · rcases segOK_chars hmod c hc with h | h
    · exact not_ws_of_classes (Or.inr (Or.inr (Or.inr (Or.inr (Or.inr (Or.inl h))))))
    · exact not_ws_of_classes (Or.inr (Or.inl h))
  rcases List.mem_cons.mp hc with rfl | hc
  · rfl
  rcases List.mem_append.mp hc with hc | hc
  · rcases deviceOK_chars hdev c hc with h | rfl
    · exact not_ws_of_classes (Or.inr (Or.inr (Or.inr (Or.inl h))))
    · rfl
  rcases List.mem_append.mp hc with hc | hc
  · cases pp with
    | none => cases hc
    | some ds =>
      unfold portCapOK at hpp
      simp only [Bool.and_eq_true, decide_eq_true_eq, List.all_eq_true] at hpp
      rcases List.mem_cons.mp hc with rfl | hc
      · rfl
      · exact not_ws_of_classes (Or.inr (Or.inr (Or.inr (Or.inr (Or.inl (hpp.2 c hc))))))
  · cases cp with
    | none => cases hc
    | some l =>
      rcases capOK_chars hcp c hc with h | rfl | h
      · exact not_ws_of_classes (Or.inr (Or.inr (Or.inl h)))
      · rfl
      · exact not_ws_of_classes (Or.inr (Or.inr (Or.inr (Or.inr (Or.inr (Or.inr h))))))

/-! ### Unfolding `parseRURI` -/

theorem parseRURI_valid_elim {s : String} {p : ParsedRURI}
    (h : parseRURI s = .valid p) :
    s ≠ "" ∧ startsWithList "rcan://".data (jsTrim s.data) = true ∧
    ∃ caps, RURI_REGEX_match (jsTrim s.data) = some caps ∧
      p = ⟨⟨jsTrim s.data⟩, ⟨caps.registry⟩, ⟨caps.manufacturer⟩, ⟨caps.model⟩,
           ⟨caps.deviceId⟩, caps.port.map digitsToNat, capField caps.capability⟩ ∧
      ∀ ds, caps.port = some ds → 1 ≤ digitsToNat ds ∧ digitsToNat ds ≤ 65535 := by
  unfold parseRURI at h
  split at h
  · exact absurd h (by simp)
  next hs0 =>
  split at h
  · exact absurd h (by simp)
  next hsw =>
  rw [Bool.not_eq_true'] at hsw
  rw [Bool.not_eq_false] at hsw
  refine ⟨hs0, hsw, ?_⟩
  split at h
  · exact absurd h (by simp)
  next caps hm =>
  refine ⟨caps, hm, ?_⟩
  split at h
  next ds hds =>
    split at h
    · exact absurd h (by simp)
    next hrange =>
      rw [RURIValidationResult.valid.injEq] at h
      simp only [Bool.or_eq_true, decide_eq_true_eq, not_or, not_lt] at hrange
      constructor
      · rw [← h, hds]
        rfl
      · intro ds' hds'
        rw [hds] at hds'
        cases hds'
        exact ⟨hrange.1, hrange.2⟩
  next hds =>
    rw [RURIValidationResult.valid.injEq] at h
    constructor
    · rw [← h, hds]
      rfl
    · intro ds' hds'
      rw [hds] at hds'
      cases hds'

theorem parseRURI_valid_intro {s : String} {caps : RURICaps}
    (h0 : s ≠ "") (hsw : startsWithList "rcan://".data (jsTrim s.data) = true)
    (hm : RURI_REGEX_match (jsTrim s.data) = some caps)
    (hport : ∀ ds, caps.port = some ds →
       1 ≤ digitsToNat ds ∧ digitsToNat ds ≤ 65535) :
    parseRURI s =
      .valid ⟨⟨jsTrim s.data⟩, ⟨caps.registry⟩, ⟨caps.manufacturer⟩, ⟨caps.model⟩,
              ⟨caps.deviceId⟩, caps.port.map digitsToNat, capField caps.capability⟩ := by
  unfold parseRURI
  rw [if_neg h0, if_neg (by rw [hsw]; simp), hm]
  cases hp : caps.port with
  | none => simp [hp]
  | some ds =>
    obtain ⟨hlo, hhi⟩ := hport ds hp
    simp only [hp]
    rw [if_neg (by simp only [Bool.or_eq_true, decide_eq_true_eq]; omega)]
    simp

/-! ### The capability field -/

theorem capField_of_capOK {l : List Char} (h : capOK l = true) :
    capField (some l) = some ⟨stripLeadSlash l⟩ ∧ capSeg (stripLeadSlash l) = true := by
  unfold capOK at h
  split at h
  next c rest =>
    have hs : stripLeadSlash ('/' :: c :: rest) = c :: rest := rfl
    rw [Bool.and_eq_true] at h
    constructor
    · simp [capField, hs]
    · rw [hs]
      unfold capSeg
      rw [Bool.and_eq_true]
      exact ⟨h.1, h.2⟩
  next c rest heq =>
    rw [Bool.and_eq_true] at h
    have hc : c ≠ '/' := by
      rintro rfl
      exact absurd h.1 (by decide)
    have hs : stripLeadSlash (c :: rest) = c :: rest := by
      unfold stripLeadSlash
      split
      next heq2 =>
        exfalso
        injection heq2 with e1 _
        exact hc e1
      next => rfl
    constructor
    · simp [capField, hs]
    · rw [hs]
      unfold capSeg
      rw [Bool.and_eq_true]
      exact ⟨h.1, h.2⟩
  next => simp at h

theorem capOK_of_capSeg {c : String} (h : capSeg c.data = true) :
    capOK ('/' :: c.data) = true := by
  unfold capSeg at h
  split at h
  next ch rest heq =>
    rw [heq]
    unfold capOK
    exact h
  next => simp at h

theorem capSeg_ne_nil {c : String} (h : capSeg c.data = true) : c ≠ "" := by
  intro rfl'
  subst rfl'
  simp [capSeg] at h

/-! ### Round-trip helpers -/

theorem assemble_scheme_append (sch : List Char) (caps : RURICaps) :
    assemble sch caps =
      sch ++ (caps.registry ++ '/' :: (caps.manufacturer ++ '/' :: (caps.model ++
        '/' :: (caps.deviceId ++ (portChars caps.port ++ capChars caps.capability))))) := by
  unfold assemble
  simp [List.append_assoc, List.cons_append]

theorem parse_build_eq {parts : RURIParts} (hv : partsValid parts = true) :
    parseRURI (buildRURI parts) =
      .valid ⟨buildRURI parts, parts.registry, parts.manufacturer, parts.model,
              parts.deviceId, parts.port, parts.capability⟩ := by
  obtain ⟨reg, man, mod, dev, pp, cp⟩ := parts
  unfold partsValid at hv
  simp only [Bool.and_eq_true] at hv
  obtain ⟨⟨⟨⟨⟨hreg, hman⟩, hmod⟩, hdev⟩, hpp⟩, hcp⟩ := hv
  set caps : RURICaps := ⟨reg.data, man.data, mod.data, dev.data,
    pp.map natToChars, cp.map (fun c => '/' :: c.data)⟩ with hcapsdef
  have hcapsOK : capsOK caps = true := by
    unfold capsOK
    simp only [hcapsdef, Bool.and_eq_true]
    refine ⟨⟨⟨⟨⟨hreg, hman⟩, hmod⟩, hdev⟩, ?_⟩, ?_⟩
    · cases pp with
      | none => rfl
      | some n =>
        simp only [Bool.and_eq_true, decide_eq_true_eq] at hpp
        show portCapOK (some (natToChars n)) = true
        unfold portCapOK
        simp only [Bool.and_eq_true, decide_eq_true_eq]
        refine ⟨⟨?_, natToChars_len_le (by omega)⟩, natToChars_all_digits n⟩
        have := natToChars_ne_nil n
        have := List.length_pos.mpr this
        omega
    · cases cp with
      | none => rfl
      | some c =>
        show capCapOK (some ('/' :: c.data)) = true
        exact capOK_of_capSeg hcp
  have hbdata : (buildRURI ⟨reg, man, mod, dev, pp, cp⟩).data =
      assemble "rcan://".data caps := by
    unfold buildRURI assemble
    simp only [hcapsdef]
    cases pp with
    | none =>
      cases cp with
      | none => simp [portChars, capChars]
      | some c =>
        have hc : c ≠ "" := capSeg_ne_nil hcp
        simp [portChars, capChars, hc]
    | some n =>
      simp only [Bool.and_eq_true, decide_eq_true_eq] at hpp
      have hn : n ≠ 0 := by omega
      cases cp with
      | none => simp [portChars, capChars, hn]
      | some c =>
        have hc : c ≠ "" := capSeg_ne_nil hcp
        simp [portChars, capChars, hn, hc]
  have hnws : ∀ c ∈ (buildRURI ⟨reg, man, mod, dev, pp, cp⟩).data, isJsWs c = false := by
    rw [hbdata]
    exact assemble_not_ws (by decide) hcapsOK
  have htrim : jsTrim (buildRURI ⟨reg, man, mod, dev, pp, cp⟩).data =
      (buildRURI ⟨reg, man, mod, dev, pp, cp⟩).data := jsTrim_eq_self hnws
  have h0 : buildRURI ⟨reg, man, mod, dev, pp, cp⟩ ≠ "" := by
    intro he
    have hd := congrArg String.data he
    rw [hbdata] at hd
    rw [assemble_scheme_append] at hd
    simp at hd
  have hsw : startsWithList "rcan://".data
      (jsTrim (buildRURI ⟨reg, man, mod, dev, pp, cp⟩).data) = true := by
    rw [htrim, hbdata, assemble_scheme_append]
    exact startsWithList_append _ _
  have hm : RURI_REGEX_match
      (jsTrim (buildRURI ⟨reg, man, mod, dev, pp, cp⟩).data) = some caps := by
    rw [htrim, hbdata]
    exact regex_complete (by decide) hcapsOK
  have hport : ∀ ds, caps.port = some ds →
      1 ≤ digitsToNat ds ∧ digitsToNat ds ≤ 65535 := by
    intro ds hds
    cases pp with
    | none => simp [hcapsdef] at hds
    | some n =>
      simp only [hcapsdef, Option.map_some', Option.some.injEq] at hds
      subst hds
      rw [digitsToNat_natToChars]
      simp only [Bool.and_eq_true, decide_eq_true_eq] at hpp
      omega
  have hmain := parseRURI_valid_intro h0 hsw hm hport
  rw [hmain, htrim]
  congr 1
  rw [ParsedRURI.mk.injEq]
  refine ⟨rfl, rfl, rfl, rfl, rfl, ?_, ?_⟩
  · cases pp with
    | none => rfl
    | some n =>
      show some (digitsToNat (natToChars n)) = some n
      rw [digitsToNat_natToChars]
  · cases cp with
    | none => rfl
    | some c =>
      show capField (some ('/' :: c.data)) = some c
      obtain ⟨hcf, _⟩ := capField_of_capOK (capOK_of_capSeg hcp)
      rw [hcf]
      rfl

theorem parse_partsValid {s : String} {p : ParsedRURI} (h : parseRURI s = .valid p) :
    partsValid p.toParts = true := by
  obtain ⟨hne, hsw, caps, hm, hp, hport⟩ := parseRURI_valid_elim h
  obtain ⟨hok, hcs, hassemble⟩ := regex_sound hm
  subst hp
  unfold capsOK at hok
  simp only [Bool.and_eq_true] at hok
  obtain ⟨⟨⟨⟨⟨hreg, hman⟩, hmod⟩, hdev⟩, hpp⟩, hcp⟩ := hok
  unfold ParsedRURI.toParts partsValid
  simp only [Bool.and_eq_true]
  refine ⟨⟨⟨⟨⟨hreg, hman⟩, hmod⟩, hdev⟩, ?_⟩, ?_⟩
  · cases hp2 : caps.port with
    | none => rfl
    | some ds =>
      obtain ⟨h1, h2⟩ := hport ds hp2
      show (match some (digitsToNat ds) with
            | some n => decide (1 ≤ n) && decide (n ≤ 65535)
            | none => true) = true
      simp only [Bool.and_eq_true, decide_eq_true_eq]
      exact ⟨h1, h2⟩
  · cases hp3 : caps.capability with
    | none => rfl
    | some l =>
      rw [hp3] at hcp
      obtain ⟨hcf, hseg⟩ := capField_of_capOK hcp
      rw [hcf]
      exact hseg

/-! ### Store and YAML lemmas -/

theorem isSubstr_joinLines {s : String} {ls : List String} (h : s ∈ ls) :
    isSubstr s.data (joinLines ls).data = true := by
  induction ls with
  | nil => cases h
  | cons l rest ih =>
    cases rest with
    | nil =>
      rcases List.mem_singleton.mp h with rfl
      have := isSubstr_self_append s.data []
      rwa [List.append_nil] at this
    | cons r t =>
      have hjoin : joinLines (l :: r :: t) = l ++ "\n" ++ joinLines (r :: t) := rfl
      rw [hjoin, String.data_append, String.data_append]
      rcases List.mem_cons.mp h with rfl | h
      · rw [List.append_assoc]
        exact isSubstr_self_append s.data _
      · exact isSubstr_append_right _ (ih h)

theorem isSubstr_yaml_line {s : String} {m : ManifestJson} {rrn d : String}
    (h : s ∈ yamlLines m rrn d) : isSubstr s.data (manifestToYaml m rrn d).data = true := by
  unfold manifestToYaml
  rw [String.data_append]
  exact isSubstr_append_left _ (isSubstr_joinLines h)

theorem manifestToYaml_has_needle {m : ManifestJson} {rrn d ruri : String}
    (h : m.ruri = some ruri) :
    isSubstr (ruriNeedle ruri) (manifestToYaml m rrn d).data = true := by
  have hmem : ("ruri: \"" ++ jsStr m.ruri ++ "\"") ∈ yamlLines m rrn d := by
    simp [yamlLines]
  have := isSubstr_yaml_line hmem
  rw [h] at this
  exact this

theorem mem_writeFileSync (store : Store) (n c : String) :
    (n, c) ∈ writeFileSync store n c := by
  unfold writeFileSync
  split
  next hin =>
    have hin' : n ∈ readdirNames store := List.mem_of_elem_eq_true hin
    rw [readdirNames, List.mem_map] at hin'
    obtain ⟨f, hf, hfn⟩ := hin'
    refine List.mem_map.mpr ⟨f, hf, ?_⟩
    rw [if_pos hfn]
  next =>
    exact List.mem_append_right _ (List.mem_singleton_self _)

/-! ### Finding and writing records -/

theorem find?_filter {α} (l : List α) (q p : α → Bool) :
    (l.filter q).find? p = l.find? (fun a => q a && p a) := by
  induction l with
  | nil => rfl
  | cons a t ih =>
    by_cases hq : q a = true
    · rw [List.filter_cons_of_pos hq]
      by_cases hp : p a = true
      · rw [List.find?_cons_of_pos _ hp, List.find?_cons_of_pos _ (by simp [hq, hp])]
      · rw [List.find?_cons_of_neg _ hp, ih,
          List.find?_cons_of_neg _ (by simp [hq]; simpa using hp)]
    · rw [List.filter_cons_of_neg hq, ih,
        List.find?_cons_of_neg _ (by simp [Bool.eq_false_iff.mpr hq])]

theorem findExisting_eq_find? (store : Store) (ruri : String) :
    findExistingByRURI store ruri =
      match store.find? (yamlFileHasRuri ruri) with
      | some f => some ⟨replaceFirst ".yaml".data [] f.1.data⟩
      | none => none := by
  unfold findExistingByRURI
  rw [find?_filter]
  rfl

theorem find?_decomp {α} {l : List α} {p : α → Bool} {a : α} (h : l.find? p = some a) :
    p a = true ∧ ∃ pre post, l = pre ++ a :: post ∧ ∀ x ∈ pre, p x = false := by
  induction l with
  | nil => cases h
  | cons b t ih =>
    by_cases hb : p b = true
    · rw [List.find?_cons_of_pos _ hb] at h
      cases h
      exact ⟨hb, [], t, rfl, by simp⟩
    · rw [List.find?_cons_of_neg _ hb] at h
      obtain ⟨hpa, pre, post, rfl, hpre⟩ := ih h
      refine ⟨hpa, b :: pre, post, rfl, ?_⟩
      intro x hx
      rcases List.mem_cons.mp hx with rfl | hx
      · exact Bool.eq_false_iff.mpr hb
      · exact hpre x hx

theorem find?_first {α} {pre post : List α} {p : α → Bool} {a : α}
    (hpre : ∀ x ∈ pre, p x = false) (ha : p a = true) :
    (pre ++ a :: post).find? p = some a := by
  induction pre with
  | nil => exact List.find?_cons_of_pos _ ha
  | cons b t ih =>
    rw [List.cons_append, List.find?_cons_of_neg _ (by
      rw [hpre b (List.mem_cons_self b t)]; exact Bool.false_ne_true)]
    exact ih fun x hx => hpre x (List.mem_cons_of_mem b hx)

theorem map_rep_id {l : Store} {n c : String} (h : ∀ f ∈ l, f.1 ≠ n) :
    l.map (fun f => if f.1 = n then (n, c) else f) = l := by
  induction l with
  | nil => rfl
  | cons f t ih =>
    rw [List.map_cons, if_neg (h f (List.mem_cons_self f t)),
      ih fun x hx => h x (List.mem_cons_of_mem f hx)]

theorem writeFileSync_update {pre post : Store} {n old c : String}
    (hpre : ∀ f ∈ pre, f.1 ≠ n) (hpost : ∀ f ∈ post, f.1 ≠ n) :
    writeFileSync (pre ++ (n, old) :: post) n c = pre ++ (n, c) :: post := by
  unfold writeFileSync
  rw [if_pos]
  · rw [List.map_append, List.map_cons, map_rep_id hpre, map_rep_id hpost, if_pos rfl]
  · apply List.elem_eq_true_of_mem
    rw [readdirNames, List.map_append, List.map_cons]
    exact List.mem_append_right _ (List.mem_cons_self _ _)

theorem writeFileSync_append {store : Store} {n c : String}
    (h : ∀ f ∈ store, f.1 ≠ n) : writeFileSync store n c = store ++ [(n, c)] := by
  unfold writeFileSync
  rw [if_neg]
  intro hmem
  have := List.mem_of_elem_eq_true hmem
  rw [readdirNames, List.mem_map] at this
  obtain ⟨f, hf, hfn⟩ := this
  exact h f hf hfn

theorem recordCount_append (a b : Store) (r : String) :
    recordCount (a ++ b) r = recordCount a r + recordCount b r := by
  simp [recordCount, List.filter_append]

theorem recordCount_cons (f : String × String) (t : Store) (r : String) :
    recordCount (f :: t) r =
      (if yamlFileHasRuri r f = true then 1 else 0) + recordCount t r := by
  by_cases h : yamlFileHasRuri r f = true
  · simp [recordCount, List.filter_cons, h, Nat.add_comm]
  · simp only [Bool.not_eq_true] at h
    simp [recordCount, List.filter_cons, h]

theorem recordCount_eq_zero {store : Store} {r : String} :
    recordCount store r = 0 ↔ ∀ f ∈ store, yamlFileHasRuri r f = false := by
  rw [recordCount, List.length_eq_zero, List.filter_eq_nil_iff]
  constructor
  · intro h f hf
    exact Bool.eq_false_iff.mpr (h f hf)
  · intro h f hf
    rw [h f hf]
    exact Bool.false_ne_true

/-! ### Record-name facts -/

theorem digit_ne_dot {c : Char} (h : isDigitChar c = true) : c ≠ '.' := by
  intro rfl'
  subst rfl'
  exact absurd h (by decide)

theorem isRRNYamlName_decomp {n : String} (h : isRRNYamlName n = true) :
    n.data = n.data.take 12 ++ ".yaml".data ∧ (∀ c ∈ n.data.take 12, c ≠ '.') ∧
    n.data.take 12 ≠ [] := by
  unfold isRRNYamlName at h
  simp only [Bool.and_eq_true, beq_iff_eq, decide_eq_true_eq, List.all_eq_true] at h
  obtain ⟨⟨⟨hlen, h4⟩, hdig⟩, h12⟩ := h
  refine ⟨?_, ?_, ?_⟩
  · conv_lhs => rw [← List.take_append_drop 12 n.data]
    rw [h12]
  · intro c hc
    have : n.data.take 12 = n.data.take 4 ++ (n.data.drop 4).take 8 :=
      List.take_add n.data 4 8
    rw [this] at hc
    rcases List.mem_append.mp hc with hc | hc
    · rw [h4] at hc
      have : c = 'R' ∨ c = 'R' ∨ c = 'N' ∨ c = '-' := by simpa using hc
      rcases this with rfl | rfl | rfl | rfl <;> decide
    · exact digit_ne_dot (hdig c hc)
  · intro hnil
    have hlt := congrArg List.length hnil
    rw [List.length_take, hlen] at hlt
    simp at hlt

theorem rrn_stem_extract {stem : List Char} (hds : ∀ c ∈ stem, c ≠ '.') :
    replaceFirst ".yaml".data [] (stem ++ ".yaml".data) = stem := by
  have hb := @replaceFirst_boundary "yaml".data stem [] [] hds
  simp only [List.append_nil] at hb
  exact hb

theorem getNextRRN_data (store : Store) :
    (getNextRRN store).data =
      "RRN-".data ++
        padStart8 (natToChars
          (maxRRN (((readdirNames store).filter isRRNYamlName).map rrnSuffix) + 1)) := by
  unfold getNextRRN
  rw [String.data_append]

theorem getNextRRN_no_dot (store : Store) :
    ∀ c ∈ (getNextRRN store).data, c ≠ '.' := by
  intro c hc
  rw [getNextRRN_data] at hc
  rcases List.mem_append.mp hc with hc | hc
  · have : c = 'R' ∨ c = 'R' ∨ c = 'N' ∨ c = '-' := by simpa using hc
    rcases this with rfl | rfl | rfl | rfl <;> decide
  · unfold padStart8 at hc
    rcases List.mem_append.mp hc with hc | hc
    · rw [List.eq_of_mem_replicate hc]
      decide
    · have := natToChars_all_digits
        (maxRRN (((readdirNames store).filter isRRNYamlName).map rrnSuffix) + 1)
      rw [List.all_eq_true] at this
      exact digit_ne_dot (this c hc)

theorem getNextRRN_ne_empty (store : Store) : getNextRRN store ≠ "" := by
  intro he
  have := congrArg String.data he
  rw [getNextRRN_data] at this
  simp at this

theorem rrnYaml_name_eq {rrn : String} (hnd : ∀ c ∈ rrn.data, c ≠ '.') :
    replaceFirst ".yaml".data [] (rrn ++ ".yaml").data = rrn.data := by
  rw [String.data_append]
  exact rrn_stem_extract hnd

theorem rrnYaml_ends {rrn : String} :
    endsWithList ".yaml".data (rrn ++ ".yaml").data = true := by
  rw [String.data_append]
  exact endsWithList_append _ _

/-! ### The effect of one reconciliation write -/

theorem nodup_split_names {pre post : Store} {f : String × String}
    (h : (readdirNames (pre ++ f :: post)).Nodup) :
    (∀ g ∈ pre, g.1 ≠ f.1) ∧ (∀ g ∈ post, g.1 ≠ f.1) := by
  rw [readdirNames, List.map_append, List.map_cons, List.nodup_append] at h
  obtain ⟨h1, h2, hdisj⟩ := h
  constructor
  · intro g hg he
    exact hdisj (List.mem_map_of_mem Prod.fst hg) (by rw [he]; exact List.mem_cons_self _ _)
  · intro g hg he
    rw [List.nodup_cons] at h2
    exact h2.1 (by rw [← he]; exact List.mem_map_of_mem Prod.fst hg)

theorem write_once {store : Store} {R : String} {m : ManifestJson} {d : String}
    (wf : WfStore store) (hcount : recordCount store R ≤ 1) :
    ∃ pre post,
      writeFileSync store (chooseRRN store R ++ ".yaml")
          (manifestToYaml m (chooseRRN store R) d) =
        pre ++ (chooseRRN store R ++ ".yaml",
                manifestToYaml m (chooseRRN store R) d) :: post ∧
      (∀ f ∈ pre, yamlFileHasRuri R f = false) ∧
      (∀ f ∈ post, yamlFileHasRuri R f = false) ∧
      (∀ f ∈ pre, f.1 ≠ chooseRRN store R ++ ".yaml") ∧
      (∀ f ∈ post, f.1 ≠ chooseRRN store R ++ ".yaml") ∧
      chooseRRN store R ≠ "" ∧
      (∀ c ∈ (chooseRRN store R).data, c ≠ '.') := by
  cases hfe : findExistingByRURI store R with
  | some s =>
    have hfind0 := hfe
    rw [findExisting_eq_find?] at hfind0
    cases hfind : store.find? (yamlFileHasRuri R) with
    | none => rw [hfind] at hfind0; cases hfind0
    | some f =>
      rw [hfind] at hfind0
      obtain ⟨fn, fc⟩ := f
      have hs : (⟨replaceFirst ".yaml".data [] fn.data⟩ : String) = s := by
        simpa using hfind0
      obtain ⟨hPf, pre, post, hstore, hpre⟩ := find?_decomp hfind
      have hfstore : (fn, fc) ∈ store := by
        rw [hstore]
        exact List.mem_append_right _ (List.mem_cons_self _ _)
      obtain ⟨hdecomp, hnodot, hnnil⟩ := isRRNYamlName_decomp (wf.2 _ hfstore)
      have hsdata : s.data = fn.data.take 12 := by
        rw [← hs]
        show replaceFirst ".yaml".data [] fn.data = fn.data.take 12
        conv_lhs => rw [hdecomp]
        exact rrn_stem_extract hnodot
      have hsne : s ≠ "" := by
        intro he
        apply hnnil
        rw [← hsdata, he]
      have hchoose : chooseRRN store R = s := by
        simp only [chooseRRN, hfe]
        rw [if_neg hsne]
      have hw : s ++ ".yaml" = fn := by
        apply String.ext
        rw [String.data_append, hsdata, ← hdecomp]
      have hnodup := wf.1
      rw [hstore] at hnodup
      obtain ⟨hpren, hpostn⟩ := nodup_split_names hnodup
      have hcnt : recordCount store R =
          recordCount pre R + (1 + recordCount post R) := by
        rw [hstore, recordCount_append, recordCount_cons, if_pos hPf]
      have hpost0 : recordCount post R = 0 := by omega
      have hpostF := recordCount_eq_zero.mp hpost0
      refine ⟨pre, post, ?_, hpre, hpostF, ?_, ?_, by rw [hchoose]; exact hsne, ?_⟩
      · rw [hchoose, hstore, ← hw]
        exact writeFileSync_update
          (fun g hg => by rw [hw]; exact hpren g hg)
          (fun g hg => by rw [hw]; exact hpostn g hg)
      · intro g hg
        rw [hchoose, hw]
        exact hpren g hg
      · intro g hg
        rw [hchoose, hw]
        exact hpostn g hg
      · rw [hchoose, hsdata]
        intro c hc
        exact hnodot c hc
  | none =>
    have hchoose : chooseRRN store R = getNextRRN store := by
      simp only [chooseRRN, hfe]
    have hall : ∀ f ∈ store, yamlFileHasRuri R f = false := by
      have hfind0 := hfe
      rw [findExisting_eq_find?] at hfind0
      cases hfind : store.find? (yamlFileHasRuri R) with
      | some f => rw [hfind] at hfind0; cases hfind0
      | none =>
        intro f hf
        exact Bool.eq_false_iff.mpr (List.find?_eq_none.mp hfind f hf)
    by_cases hw : ∃ f ∈ store, f.1 = chooseRRN store R ++ ".yaml"
    · obtain ⟨⟨fn, fc⟩, hf, hfw⟩ := hw
      have hfw' : fn = chooseRRN store R ++ ".yaml" := hfw
      subst hfw'
      obtain ⟨pre, post, hstore⟩ := List.append_of_mem hf
      have hnodup := wf.1
      rw [hstore] at hnodup
      obtain ⟨hpren, hpostn⟩ := nodup_split_names hnodup
      refine ⟨pre, post, ?_, ?_, ?_, hpren, hpostn,
        by rw [hchoose]; exact getNextRRN_ne_empty store,
        by rw [hchoose]; exact getNextRRN_no_dot store⟩
      · nth_rewrite 1 [hstore]
        exact writeFileSync_update hpren hpostn
      · intro g hg
        exact hall g (by rw [hstore]; exact List.mem_append_left _ hg)
      · intro g hg
        exact hall g (by
          rw [hstore]
          exact List.mem_append_right _ (List.mem_cons_of_mem _ hg))
    · push_neg at hw
      refine ⟨store, [], ?_, hall, by simp, hw, by simp,
        by rw [hchoose]; exact getNextRRN_ne_empty store,
        by rw [hchoose]; exact getNextRRN_no_dot store⟩
      exact writeFileSync_append hw

/-- A record written as `rrn.yaml` from a manifest whose `ruri` field is the source
string is found by the needle search. -/
theorem written_file_has_ruri {m : ManifestJson} {rrn d R : String} (h : m.ruri = some R) :
    yamlFileHasRuri R (rrn ++ ".yaml", manifestToYaml m rrn d) = true := by
  show (endsWithList ".yaml".data (rrn ++ ".yaml").data &&
    isSubstr (ruriNeedle R) (manifestToYaml m rrn d).data) = true
  rw [rrnYaml_ends, manifestToYaml_has_needle h]
  rfl

theorem recordCount_single {pre post : Store} {R : String} {f : String × String}
    (hpre : ∀ g ∈ pre, yamlFileHasRuri R g = false)
    (hpost : ∀ g ∈ post, yamlFileHasRuri R g = false)
    (hf : yamlFileHasRuri R f = true) :
    recordCount (pre ++ f :: post) R = 1 := by
  rw [recordCount_append, recordCount_cons, if_pos hf,
    recordCount_eq_zero.mpr hpre, recordCount_eq_zero.mpr hpost]

theorem findExisting_after_write {pre post : Store} {R rrn y : String}
    (hpre : ∀ f ∈ pre, yamlFileHasRuri R f = false)
    (hy : yamlFileHasRuri R (rrn ++ ".yaml", y) = true)
    (hnd : ∀ c ∈ rrn.data, c ≠ '.') :
    findExistingByRURI (pre ++ (rrn ++ ".yaml", y) :: post) R = some rrn := by
  rw [findExisting_eq_find?, find?_first hpre hy]
  exact congrArg some (String.ext (rrnYaml_name_eq hnd))

theorem chooseRRN_after_write {pre post : Store} {R rrn y : String}
    (hpre : ∀ f ∈ pre, yamlFileHasRuri R f = false)
    (hy : yamlFileHasRuri R (rrn ++ ".yaml", y) = true)
    (hnd : ∀ c ∈ rrn.data, c ≠ '.') (hne : rrn ≠ "") :
    chooseRRN (pre ++ (rrn ++ ".yaml", y) :: post) R = rrn := by
  simp only [chooseRRN, findExisting_after_write hpre hy hnd]
  rw [if_neg hne]

/-- With a successful parse, a fetched manifest and `dryRun = false`, `syncRURI` is
exactly the reconciliation write. -/
theorem syncRURI_write_eq {R : String} (store : Store) {m : ManifestJson} (d : String)
    (hp : syncParseRURI R ≠ none) :
    syncRURI R store false (some m) d =
      ⟨writeFileSync store (chooseRRN store R ++ ".yaml")
         (manifestToYaml m (chooseRRN store R) d),
       some (chooseRRN store R), true,
       some (manifestToYaml m (chooseRRN store R) d)⟩ := by
  cases hps : syncParseRURI R with
  | none => exact absurd hps hp
  | some p => simp [syncRURI, hps]

/-- The store after one (non-dry) sync: the record for the chosen identifier sits at
the position the write put it, and — given that at most one record claimed the source
before — no other record claims the source and no other file bears the written name. -/
theorem sync_write_shape {store : Store} {R : String} {m : ManifestJson} {d : String}
    (wf : WfStore store) (hcount : recordCount store R ≤ 1)
    (hp : syncParseRURI R ≠ none) :
    ∃ pre post,
      (syncRURI R store false (some m) d).store =
        pre ++ (chooseRRN store R ++ ".yaml",
                manifestToYaml m (chooseRRN store R) d) :: post ∧
      (syncRURI R store false (some m) d).rrn = some (chooseRRN store R) ∧
      (∀ f ∈ pre, yamlFileHasRuri R f = false) ∧
      (∀ f ∈ post, yamlFileHasRuri R f = false) ∧
      (∀ f ∈ pre, f.1 ≠ chooseRRN store R ++ ".yaml") ∧
      (∀ f ∈ post, f.1 ≠ chooseRRN store R ++ ".yaml") ∧
      chooseRRN store R ≠ "" ∧ ∀ c ∈ (chooseRRN store R).data, c ≠ '.' := by
  obtain ⟨pre, post, heq, h1, h2, h3, h4, h5, h6⟩ := write_once (m := m) (d := d) wf hcount
  exact ⟨pre, post, by rw [syncRURI_write_eq store d hp]; exact heq,
    by rw [syncRURI_write_eq store d hp], h1, h2, h3, h4, h5, h6⟩

/-! ### Case-variance transfer

Every character class of the regex is closed under ASCII case flips (`caseEq`), so a
match transfers to any case variant of the matched string.  The transfer is stated
through `List.Forall₂` of `caseEq`. -/

theorem caseEq_trans {c d e : Char} (h1 : caseEq c d = true) (h2 : caseEq d e = true) :
    caseEq c e = true := by
  rcases caseEq_cases h1 with rfl | ⟨hc, hd, ho1⟩
  · exact h2
  · rcases caseEq_cases h2 with rfl | ⟨hd', he, ho2⟩
    · exact h1
    · have harith : c.toNat = e.toNat ∨ (c.toNat + 32 = e.toNat ∨ e.toNat + 32 = c.toNat) := by
        rw [letter_arith] at hc hd he
        omega
      simp only [caseEq, Bool.or_eq_true, Bool.and_eq_true, decide_eq_true_eq]
      rcases harith with h | h
      · exact Or.inl (char_toNat_inj h)
      · exact Or.inr ⟨⟨hc, he⟩, h⟩

theorem caseEq_eq_const {c d e : Char} (hcd : caseEq c d = true)
    (he : isAsciiLetter e = false) : (c = e) ↔ (d = e) := by
  constructor
  · rintro rfl
    exact (caseEq_fix hcd he).symm
  · rintro rfl
    exact caseEq_fix' hcd he

theorem forall2_caseEq_symm {a b : List Char}
    (h : List.Forall₂ (fun c d => caseEq c d = true) a b) :
    List.Forall₂ (fun c d => caseEq c d = true) b a := by
  induction h with
  | nil => exact List.Forall₂.nil
  | cons hcd _ ih => exact List.Forall₂.cons (caseEq_symm hcd) ih

theorem forall2_caseEq_trans {a b : List Char}
    (h1 : List.Forall₂ (fun c d => caseEq c d = true) a b) :
    ∀ {e : List Char}, List.Forall₂ (fun c d => caseEq c d = true) b e →
      List.Forall₂ (fun c d => caseEq c d = true) a e := by
  induction h1 with
  | nil =>
    intro e h2
    cases h2
    exact List.Forall₂.nil
  | cons hcd _ ih =>
    intro e h2
    cases h2 with
    | cons hde ht2 => exact List.Forall₂.cons (caseEq_trans hcd hde) (ih ht2)

theorem forall2_append_split {R : Char → Char → Prop} {a b l : List Char}
    (h : List.Forall₂ R (a ++ b) l) :
    ∃ a' b', l = a' ++ b' ∧ List.Forall₂ R a a' ∧ List.Forall₂ R b b' := by
  refine ⟨l.take a.length, l.drop a.length, (List.take_append_drop _ l).symm, ?_, ?_⟩
  · have h' := List.forall₂_take a.length h
    rwa [List.take_left] at h'
  · have h' := List.forall₂_drop a.length h
    rwa [List.drop_left] at h'

theorem forall2_cons_split {R : Char → Char → Prop} {c : Char} {t l : List Char}
    (h : List.Forall₂ R (c :: t) l) :
    ∃ d t', l = d :: t' ∧ R c d ∧ List.Forall₂ R t t' := by
  match l, h with
  | d :: t', .cons hcd ht => exact ⟨d, t', rfl, hcd, ht⟩

theorem forall2_all_transfer {p : Char → Bool}
    (hp : ∀ {c d : Char}, caseEq c d = true → p c = p d)
    {a b : List Char} (h : List.Forall₂ (fun c d => caseEq c d = true) a b) :
    a.all p = b.all p := by
  induction h with
  | nil => rfl
  | cons hcd _ ih => simp only [List.all_cons, hp hcd, ih]

theorem forall2_digits_eq {a b : List Char}
    (h : List.Forall₂ (fun c d => caseEq c d = true) a b)
    (hd : a.all isDigitChar = true) : a = b := by
  induction h with
  | nil => rfl
  | cons hcd _ ih =>
    rw [List.all_cons, Bool.and_eq_true] at hd
    rw [caseEq_digit_eq hcd hd.1, ih hd.2]

theorem forall2_head_dash {a b : List Char}
    (h : List.Forall₂ (fun c d => caseEq c d = true) a b) :
    (a.take 1 == ['-']) = (b.take 1 == ['-']) := by
  match a, b, h with
  | [], [], _ => rfl
  | c :: t₁, d :: t₂, .cons hcd _ =>
    show ([c] == ['-']) = ([d] == ['-'])
    rw [Bool.eq_iff_iff]
    simp only [beq_iff_eq, List.cons.injEq, and_true]
    exact caseEq_eq_const hcd (by decide)

theorem hexRun_caseEq {a b : List Char}
    (h : List.Forall₂ (fun c d => caseEq c d = true) a b) (n : Nat) :
    hexRun a n = hexRun b n := by
  unfold hexRun
  rw [h.length_eq, forall2_all_transfer caseEq_isHexChar h]

theorem uuidTail_caseEq {a b : List Char}
    (h : List.Forall₂ (fun c d => caseEq c d = true) a b) :
    uuidTail a = uuidTail b := by
  unfold uuidTail
  rw [h.length_eq, forall2_head_dash h,
    hexRun_caseEq (List.forall₂_take 4 (List.forall₂_drop 1 h)) 4,
    forall2_head_dash (List.forall₂_drop 5 h),
    hexRun_caseEq (List.forall₂_take 4 (List.forall₂_drop 6 h)) 4,
    forall2_head_dash (List.forall₂_drop 10 h),
    hexRun_caseEq (List.forall₂_take 4 (List.forall₂_drop 11 h)) 4,
    forall2_head_dash (List.forall₂_drop 15 h),
    hexRun_caseEq (List.forall₂_take 12 (List.forall₂_drop 16 h)) 12]

theorem deviceOK_caseEq {a b : List Char}
    (h : List.Forall₂ (fun c d => caseEq c d = true) a b) :
    deviceOK a = deviceOK b := by
  unfold deviceOK
  rw [h.length_eq, forall2_all_transfer caseEq_isHexChar h,
    forall2_all_transfer caseEq_isHexChar (List.forall₂_take 8 h),
    uuidTail_caseEq (List.forall₂_drop 8 h)]

theorem segTail_caseEq {mid : Char → Bool}
    (hmid : ∀ {c d : Char}, caseEq c d = true → mid c = mid d)
    {a b : List Char} (h : List.Forall₂ (fun c d => caseEq c d = true) a b) :
    segTail mid a = segTail mid b := by
  induction h with
  | nil => rfl
  | cons hcd ht ih =>
    cases ht with
    | nil => exact caseEq_isAlnum hcd
    | cons h2 ht2 =>
      show (mid _ && segTail mid _) = (mid _ && segTail mid _)
      rw [hmid hcd, ih]

theorem segOK_caseEq {mid : Char → Bool}
    (hmid : ∀ {c d : Char}, caseEq c d = true → mid c = mid d)
    {a b : List Char} (h : List.Forall₂ (fun c d => caseEq c d = true) a b) :
    segOK mid a = segOK mid b := by
  match a, b, h with
  | [], [], _ => rfl
  | c :: t₁, d :: t₂, .cons hcd ht =>
    show (isAlnum c && segTail mid t₁) = (isAlnum d && segTail mid t₂)
    rw [caseEq_isAlnum hcd, segTail_caseEq hmid ht]

theorem stripLeadSlash_noslash {c : Char} {rest : List Char} (hc : c ≠ '/') :
    stripLeadSlash (c :: rest) = c :: rest := by
  unfold stripLeadSlash
  split
  next heq =>
    injection heq with e1 _
    exact absurd e1 hc
  next => rfl

theorem stripLeadSlash_caseEq {a b : List Char}
    (h : List.Forall₂ (fun c d => caseEq c d = true) a b) :
    List.Forall₂ (fun c d => caseEq c d = true) (stripLeadSlash a) (stripLeadSlash b) := by
  match a, b, h with
  | [], [], _ => exact List.Forall₂.nil
  | c :: t₁, d :: t₂, .cons hcd ht =>
    by_cases hc : c = '/'
    · subst hc
      have hd : d = '/' := (caseEq_fix hcd (by decide)).symm
      subst hd
      exact ht
    · have hd : d ≠ '/' := by
        intro he
        subst he
        exact hc (caseEq_fix' hcd (by decide))
      rw [stripLeadSlash_noslash hc, stripLeadSlash_noslash hd]
      exact List.Forall₂.cons hcd ht

theorem capOK_noslash_eq {c : Char} {rest : List Char} (hc : c ≠ '/') :
    capOK (c :: rest) = (isAsciiLetter c && rest.all isCapChar) := by
  unfold capOK
  split
  next heq =>
    injection heq with e1 _
    exact absurd e1 hc
  next x r heq =>
    injection heq with e1 e2
    subst e1
    subst e2
    rfl
  next =>
    rename_i heq
    cases heq

theorem capOK_trans_mp {a b : List Char}
    (h : List.Forall₂ (fun c d => caseEq c d = true) a b) (ha : capOK a = true) :
    capOK b = true := by
  match a, b, h with
  | [], [], _ => exact ha
  | [c], [d], .cons hcd _ =>
    by_cases hc : c = '/'
    · subst hc
      exact absurd ha (by decide)
    · have hd : d ≠ '/' := by
        intro he
        subst he
        exact hc (caseEq_fix' hcd (by decide))
      have ha' : (isAsciiLetter c && List.all [] isCapChar) = true := by
        rw [← capOK_noslash_eq hc]
        exact ha
      rw [capOK_noslash_eq hd, ← caseEq_isAsciiLetter hcd]
      exact ha'
  | c :: c2 :: t₁, d :: d2 :: t₂, .cons hcd (.cons h2 ht) =>
    by_cases hc : c = '/'
    · subst hc
      have hd : d = '/' := (caseEq_fix hcd (by decide)).symm
      subst hd
      have ha' : (isAsciiLetter c2 && t₁.all isCapChar) = true := ha
      show (isAsciiLetter d2 && t₂.all isCapChar) = true
      rwa [← caseEq_isAsciiLetter h2, ← forall2_all_transfer caseEq_isCapChar ht]
    · have hd : d ≠ '/' := by
        intro he
        subst he
        exact hc (caseEq_fix' hcd (by decide))
      have ha' : (isAsciiLetter c && (c2 :: t₁).all isCapChar) = true := by
        rw [← capOK_noslash_eq hc]
        exact ha
      rw [capOK_noslash_eq hd,
        ← caseEq_isAsciiLetter hcd,
        ← forall2_all_transfer caseEq_isCapChar (List.Forall₂.cons h2 ht)]
      exact ha'

theorem forall2_dropWhile_ws {a b : List Char}
    (h : List.Forall₂ (fun c d => caseEq c d = true) a b) :
    List.Forall₂ (fun c d => caseEq c d = true)
      (a.dropWhile isJsWs) (b.dropWhile isJsWs) := by
  induction h with
  | nil => exact List.Forall₂.nil
  | @cons c d t₁ t₂ hcd ht ih =>
    rw [List.dropWhile_cons, List.dropWhile_cons, ← caseEq_isJsWs hcd]
    by_cases hw : isJsWs c = true
    · rw [if_pos hw, if_pos hw]
      exact ih
    · rw [if_neg hw, if_neg hw]
      exact List.Forall₂.cons hcd ht

theorem jsTrim_caseEq {a b : List Char}
    (h : List.Forall₂ (fun c d => caseEq c d = true) a b) :
    List.Forall₂ (fun c d => caseEq c d = true) (jsTrim a) (jsTrim b) := by
  unfold jsTrim
  rw [List.forall₂_reverse_iff]
  apply forall2_dropWhile_ws
  rw [List.forall₂_reverse_iff]
  exact forall2_dropWhile_ws h

/-! ## Claims -/

/-- C3: for every syntactically valid component set `c`, `parse(build(c))` succeeds
and returns exactly the components of `c` (with `raw` the built string); in
particular, the components of every `ParsedIdentifier` produced by `parse` are
syntactically valid, so `parse(build(p))` yields an equivalent value. -/
theorem c3_round_trip :
    (∀ parts : RURIParts, partsValid parts = true →
      parseRURI (buildRURI parts) =
        .valid ⟨buildRURI parts, parts.registry, parts.manufacturer, parts.model,
                parts.deviceId, parts.port, parts.capability⟩) ∧
    (∀ (s : String) (p : ParsedRURI), parseRURI s = .valid p →
      partsValid p.toParts = true ∧
      parseRURI (buildRURI p.toParts) =
        .valid ⟨buildRURI p.toParts, p.registry, p.manufacturer, p.model,
                p.deviceId, p.port, p.capability⟩) := by
  constructor
  · exact fun _ hv => parse_build_eq hv
  · intro s p h
    exact ⟨parse_partsValid h, parse_build_eq (parse_partsValid h)⟩

/-- Witness for C3 at a concrete component set. -/
theorem c3_round_trip_witness :
    parseRURI
        (buildRURI ⟨"example.com", "acme", "arm-bot", "deadbeef", some 8080, some "grasp"⟩) =
      .valid ⟨buildRURI ⟨"example.com", "acme", "arm-bot", "deadbeef", some 8080, some "grasp"⟩,
              "example.com", "acme", "arm-bot", "deadbeef", some 8080, some "grasp"⟩ :=
  c3_round_trip.1 ⟨"example.com", "acme", "arm-bot", "deadbeef", some 8080, some "grasp"⟩
    (by decide)

/-- C4: `getNextRRN` returns `RRN-00000001` on an empty store, `RRN-00000008` on a
store carrying suffixes 3 and 7, and file names that do not match the
`RRN-########.yaml` pattern never participate in the maximum. -/
theorem c4_allocation :
    getNextRRN [] = "RRN-00000001" ∧
    getNextRRN [("RRN-00000003.yaml", ""), ("RRN-00000007.yaml", "")] = "RRN-00000008" ∧
    ∀ (store : Store) (n c : String), isRRNYamlName n = false →
      getNextRRN ((n, c) :: store) = getNextRRN store := by
  refine ⟨by decide, by decide, ?_⟩
  intro store n c h
  unfold getNextRRN readdirNames
  simp [List.filter_cons, h]

/-- Witness for C4: a non-matching file name does not change the allocation. -/
theorem c4_allocation_witness :
    getNextRRN (("notes.txt", "hello") :: [("RRN-00000003.yaml", "")]) =
      getNextRRN [("RRN-00000003.yaml", "")] :=
  c4_allocation.2.2 [("RRN-00000003.yaml", "")] "notes.txt" "hello" (by decide)

/-- C6: with the dry-run flag set, `syncRURI` never writes: one call, and any
sequence of calls, leave the store byte-for-byte unchanged, while the would-be
record content is still produced. -/
theorem c6_dry_run_purity :
    (∀ (ruri : String) (store : Store) (fetched : Option ManifestJson) (today : String),
      (syncRURI ruri store true fetched today).store = store ∧
      (syncRURI ruri store true fetched today).wrote = false) ∧
    (∀ (store : Store) (calls : List (String × Option ManifestJson × String)),
      calls.foldl (fun s args => (syncRURI args.1 s true args.2.1 args.2.2).store) store
        = store) ∧
    (∀ (ruri : String) (store : Store) (m : ManifestJson) (today : String),
      syncParseRURI ruri ≠ none →
      (syncRURI ruri store true (some m) today).yaml =
        some (manifestToYaml m (chooseRRN store ruri) today)) := by
  have hone : ∀ (ruri : String) (store : Store) (fetched : Option ManifestJson)
      (today : String),
      (syncRURI ruri store true fetched today).store = store ∧
      (syncRURI ruri store true fetched today).wrote = false := by
    intro ruri store fetched today
    unfold syncRURI
    cases syncParseRURI ruri <;> cases fetched <;> simp
  refine ⟨hone, ?_, ?_⟩
  · intro store calls
    induction calls generalizing store with
    | nil => rfl
    | cons a t ih =>
      rw [List.foldl_cons, (hone a.1 store a.2.1 a.2.2).1, ih]
  · intro ruri store m today hp
    unfold syncRURI
    cases hps : syncParseRURI ruri with
    | none => exact absurd hps hp
    | some q => simp

/-- Witness for C6: a dry-run call on a concrete store previews the record without
persisting it. -/
theorem c6_dry_run_purity_witness :
    (syncRURI "rcan://example.com/acme/arm-bot/deadbeef" [("RRN-00000001.yaml", "x")]
        true (some { ruri := some "rcan://example.com/acme/arm-bot/deadbeef",
                     name := some "ArmBot" }) "2026-01-02").yaml =
      some (manifestToYaml
        { ruri := some "rcan://example.com/acme/arm-bot/deadbeef", name := some "ArmBot" }
        (chooseRRN [("RRN-00000001.yaml", "x")] "rcan://example.com/acme/arm-bot/deadbeef")
        "2026-01-02") :=
  c6_dry_run_purity.2.2 "rcan://example.com/acme/arm-bot/deadbeef"
    [("RRN-00000001.yaml", "x")]
    { ruri := some "rcan://example.com/acme/arm-bot/deadbeef", name := some "ArmBot" }
    "2026-01-02" (by decide)

/-- C7: the rejection set of `parseRURI`: the empty string, strings whose trimmed
form does not begin with the literal scheme, device ids that are neither 8 hex
digits nor a full UUID, and ports 0 and 65536 are all rejected, each with its
distinguishing message; ports 1 and 65535 are accepted. -/
theorem c7_rejection_set :
    parseRURI "" = .invalid "RURI cannot be empty" ∧
    (∀ s : String, s ≠ "" →
      startsWithList "rcan://".data (jsTrim s.data) = false →
      parseRURI s = .invalid "RURI must start with rcan://") ∧
    parseRURI "rcan://example.com/acme/bot/deadbee" = .invalid "Invalid RURI format" ∧
    parseRURI "rcan://example.com/acme/bot/deadbeef1" = .invalid "Invalid RURI format" ∧
    parseRURI "rcan://example.com/acme/bot/deadbeef-dead-beef-dead-deadbeefdea" =
      .invalid "Invalid RURI format" ∧
    parseRURI "rcan://example.com/acme/bot/deadbeef:0" =
      .invalid "Port must be between 1 and 65535" ∧
    parseRURI "rcan://example.com/acme/bot/deadbeef:65536" =
      .invalid "Port must be between 1 and 65535" ∧
    parseRURI "rcan://example.com/acme/bot/deadbeef:1" =
      .valid ⟨"rcan://example.com/acme/bot/deadbeef:1", "example.com", "acme", "bot",
              "deadbeef", some 1, none⟩ ∧
    parseRURI "rcan://example.com/acme/bot/deadbeef:65535" =
      .valid ⟨"rcan://example.com/acme/bot/deadbeef:65535", "example.com", "acme", "bot",
              "deadbeef", some 65535, none⟩ := by
  refine ⟨by decide, ?_, by decide, by decide, by decide, by decide, by decide,
    by decide, by decide⟩
  intro s hs0 hsw
  unfold parseRURI
  rw [if_neg hs0, if_pos]
  rw [hsw]
  rfl

/-- Witness for C7: a string with the wrong scheme is rejected with the scheme
message. -/
theorem c7_rejection_set_witness :
    parseRURI "http://example.com/acme/bot/deadbeef" =
      .invalid "RURI must start with rcan://" :=
  c7_rejection_set.2.1 "http://example.com/acme/bot/deadbeef" (by decide) (by decide)

/-- C9 fails on the code: the capability separator slash is optional in
`RURI_REGEX`, so `parseRURI` accepts a string in which the capability follows the
device id with no `/` in between (the raw string has only the five slashes of the
scheme and the three separators). -/
theorem c9_counterexample :
    parseRURI "rcan://example.com/acme/bot/deadbeefgrasp" =
      .valid ⟨"rcan://example.com/acme/bot/deadbeefgrasp", "example.com", "acme", "bot",
              "deadbeef", none, some "grasp"⟩ ∧
    (("rcan://example.com/acme/bot/deadbeefgrasp" : String).data.filter
        (fun c => c = '/')).length = 5 := by
  constructor
  · decide
  · decide

/-- C9 amended: every accepted string decomposes as
`scheme // authority / manufacturer / model / device-id [:port] [capability]` where
the capability part, when present, satisfies the capability group — a letter-led
segment with an OPTIONAL leading slash. -/
theorem c9_amended :
    ∀ (s : String) (p : ParsedRURI), parseRURI s = .valid p →
    ∃ caps : RURICaps, capsOK caps = true ∧
      jsTrim s.data = "rcan://".data ++ (caps.registry ++ '/' :: (caps.manufacturer ++
        '/' :: (caps.model ++ '/' :: (caps.deviceId ++
          (portChars caps.port ++ capChars caps.capability))))) ∧
      p.registry = ⟨caps.registry⟩ ∧ p.manufacturer = ⟨caps.manufacturer⟩ ∧
      p.model = ⟨caps.model⟩ ∧ p.deviceId = ⟨caps.deviceId⟩ ∧
      p.port = caps.port.map digitsToNat ∧ p.capability = capField caps.capability := by
  intro s p h
  obtain ⟨hne, hsw, caps, hm, hp, hport⟩ := parseRURI_valid_elim h
  obtain ⟨hok, hcs, hass⟩ := regex_sound hm
  subst hp
  refine ⟨caps, hok, ?_, rfl, rfl, rfl, rfl, rfl, rfl⟩
  obtain ⟨r, hr⟩ := startsWithList_iff.mp hsw
  have h7 : (jsTrim s.data).take 7 = "rcan://".data := by
    rw [hr]
    exact List.take_left' (by decide)
  rw [hass] at hr ⊢
  rw [h7, assemble_scheme_append]

/-- Witness for C9 amended, at the slash-less capability input. -/
theorem c9_amended_witness :
    ∃ caps : RURICaps, capsOK caps = true ∧
      jsTrim ("rcan://example.com/acme/bot/deadbeefgrasp" : String).data =
        "rcan://".data ++ (caps.registry ++ '/' :: (caps.manufacturer ++
          '/' :: (caps.model ++ '/' :: (caps.deviceId ++
            (portChars caps.port ++ capChars caps.capability))))) ∧
      ("example.com" : String) = ⟨caps.registry⟩ ∧ ("acme" : String) = ⟨caps.manufacturer⟩ ∧
      ("bot" : String) = ⟨caps.model⟩ ∧ ("deadbeef" : String) = ⟨caps.deviceId⟩ ∧
      (none : Option Nat) = caps.port.map digitsToNat ∧
      (some "grasp" : Option String) = capField caps.capability :=
  c9_amended "rcan://example.com/acme/bot/deadbeefgrasp"
    ⟨"rcan://example.com/acme/bot/deadbeefgrasp", "example.com", "acme", "bot",
     "deadbeef", none, some "grasp"⟩ (by decide)

/-- C8 fails on the code: `parseRURI` is case-sensitive on the scheme prefix — the
all-uppercase case variant of an accepted string is rejected by the
`startsWith('rcan://')` check. -/
theorem c8_counterexample :
    parseRURI "rcan://example.com/acme/bot/deadbeef" =
      .valid ⟨"rcan://example.com/acme/bot/deadbeef", "example.com", "acme", "bot",
              "deadbeef", none, none⟩ ∧
    listCaseEq ("rcan://example.com/acme/bot/deadbeef" : String).data
      ("RCAN://example.com/acme/bot/deadbeef" : String).data = true ∧
    parseRURI "RCAN://example.com/acme/bot/deadbeef" =
      .invalid "RURI must start with rcan://" := by
  refine ⟨by decide, by decide, by decide⟩

/-- C5: the example manifest reconciled into an empty store yields record
`RRN-00000001`; its YAML carries `status: "retired"`, the fixed sync tag and the
capability tag; `manifestToRegistryData` maps it to status `retired` with tags
`rcan-registered` and `grasp`; and in general manifest status `offline` maps to
`retired` while anything else (or absence) maps to `active`. -/
theorem c5_end_to_end :
    ∀ (m : ManifestJson) (today : String),
    m = { ruri := some "rcan://example.com/acme/arm-bot/deadbeef", name := some "ArmBot",
          manufacturer := some "Acme", model := some "arm-bot", status := some "offline",
          capabilities := some ["grasp"] } →
    (syncRURI "rcan://example.com/acme/arm-bot/deadbeef" [] false (some m) today).rrn =
        some "RRN-00000001" ∧
    (syncRURI "rcan://example.com/acme/arm-bot/deadbeef" [] false (some m) today).store =
        [("RRN-00000001.yaml", manifestToYaml m "RRN-00000001" today)] ∧
    isSubstr "status: \"retired\"".data (manifestToYaml m "RRN-00000001" today).data = true ∧
    isSubstr "  - \"rcan-synced\"".data (manifestToYaml m "RRN-00000001" today).data = true ∧
    isSubstr "  - \"grasp\"".data (manifestToYaml m "RRN-00000001" today).data = true ∧
    (manifestToRegistryData m "RRN-00000001" today).status = "retired" ∧
    (manifestToRegistryData m "RRN-00000001" today).tags = ["rcan-registered", "grasp"] ∧
    (∀ (m' : ManifestJson) (rrn d : String),
      (manifestToRegistryData m' rrn d).status =
        (if m'.status = some "offline" then "retired" else "active")) := by
  intro m today hm
  subst hm
  have hps : syncParseRURI "rcan://example.com/acme/arm-bot/deadbeef" =
      some ⟨"rcan://example.com/acme/arm-bot/deadbeef", "example.com", "acme", "arm-bot",
            "deadbeef", none, none⟩ := by decide
  have hchoose : chooseRRN [] "rcan://example.com/acme/arm-bot/deadbeef" =
      "RRN-00000001" := by decide
  refine ⟨?_, ?_, ?_, ?_, ?_, ?_, ?_, ?_⟩
  · simp [syncRURI, hps, hchoose]
  · simp [syncRURI, hps, hchoose, writeFileSync, readdirNames]
  · exact isSubstr_yaml_line (by simp [yamlLines, linkLines, specLines, ownerLines, yamlTags])
  · exact isSubstr_yaml_line (by simp [yamlLines, linkLines, specLines, ownerLines, yamlTags])
  · exact isSubstr_yaml_line (by simp [yamlLines, linkLines, specLines, ownerLines, yamlTags])
  · simp [manifestToRegistryData]
  · simp [manifestToRegistryData]
  · intro m' rrn d
    rfl

/-- Witness for C5 at a concrete date. -/
theorem c5_end_to_end_witness :
    (syncRURI "rcan://example.com/acme/arm-bot/deadbeef" [] false
        (some { ruri := some "rcan://example.com/acme/arm-bot/deadbeef",
                name := some "ArmBot", manufacturer := some "Acme",
                model := some "arm-bot", status := some "offline",
                capabilities := some ["grasp"] }) "2026-01-02").rrn =
      some "RRN-00000001" :=
  (c5_end_to_end _ "2026-01-02" rfl).1

set_option maxRecDepth 8192 in
/-- C2 fails on the code: `syncRURI` never invokes `validateManifest` — a manifest
failing validation (here one with no `name`, no `manufacturer` and no `model`) is
reconciled and persisted, manufacturing a record whose mandatory fields are the
string `"undefined"`. -/
theorem c2_counterexample :
    validateManifest { ruri := some "rcan://example.com/acme/arm-bot/deadbeef" } = false ∧
    (syncRURI "rcan://example.com/acme/arm-bot/deadbeef" [] false
        (some { ruri := some "rcan://example.com/acme/arm-bot/deadbeef" })
        "2026-01-02").wrote = true ∧
    (syncRURI "rcan://example.com/acme/arm-bot/deadbeef" [] false
        (some { ruri := some "rcan://example.com/acme/arm-bot/deadbeef" })
        "2026-01-02").store =
      [("RRN-00000001.yaml",
        manifestToYaml { ruri := some "rcan://example.com/acme/arm-bot/deadbeef" }
          "RRN-00000001" "2026-01-02")] ∧
    isSubstr "name: \"undefined\"".data
      (manifestToYaml { ruri := some "rcan://example.com/acme/arm-bot/deadbeef" }
        "RRN-00000001" "2026-01-02").data = true := by
  refine ⟨by decide, by decide, by decide, by decide⟩

/-- C2 amended: `validateManifest` checks exactly the presence of the four mandatory
fields, but the sync pipeline performs no validation between fetch and
reconciliation: for every parseable target, a write is performed and the manifest's
YAML rendering is persisted whether or not the manifest passes `validateManifest`. -/
theorem c2_amended :
    (∀ m : ManifestJson, validateManifest m =
       (m.ruri.isSome && m.name.isSome && m.manufacturer.isSome && m.model.isSome)) ∧
    (∀ (ruri : String) (store : Store) (m : ManifestJson) (d : String),
      syncParseRURI ruri ≠ none → validateManifest m = false →
      (syncRURI ruri store false (some m) d).wrote = true ∧
      (chooseRRN store ruri ++ ".yaml", manifestToYaml m (chooseRRN store ruri) d) ∈
        (syncRURI ruri store false (some m) d).store) := by
  refine ⟨fun _ => rfl, ?_⟩
  intro ruri store m d hp hv
  unfold syncRURI
  cases hps : syncParseRURI ruri with
  | none => exact absurd hps hp
  | some q =>
    exact ⟨rfl, mem_writeFileSync store _ _⟩

/-- Witness for C2 amended at a concrete unvalidated manifest. -/
theorem c2_amended_witness :
    (syncRURI "rcan://example.com/acme/arm-bot/deadbeef" [] false
        (some { ruri := some "rcan://example.com/acme/arm-bot/deadbeef" })
        "2026-01-02").wrote = true ∧
    (chooseRRN [] "rcan://example.com/acme/arm-bot/deadbeef" ++ ".yaml",
      manifestToYaml { ruri := some "rcan://example.com/acme/arm-bot/deadbeef" }
        (chooseRRN [] "rcan://example.com/acme/arm-bot/deadbeef") "2026-01-02") ∈
      (syncRURI "rcan://example.com/acme/arm-bot/deadbeef" [] false
        (some { ruri := some "rcan://example.com/acme/arm-bot/deadbeef" })
        "2026-01-02").store :=
  c2_amended.2 "rcan://example.com/acme/arm-bot/deadbeef" []
    { ruri := some "rcan://example.com/acme/arm-bot/deadbeef" } "2026-01-02"
    (by decide) (by decide)

/-- C8 (amended): matching is case-insensitive only after the scheme check.  If
`parseRURI` accepts `s₁`, and `s₂` is a character-wise case variant of `s₁` whose
trimmed form still starts with the literal lowercase `rcan://`, then `parseRURI`
accepts `s₂`, with every component equal to `s₁`'s up to ASCII case (the capture
groups preserve the input's case) and with an identical port number.  (The
`c8_counterexample` shows the scheme-changing variants are rejected, so the
restriction to variants keeping the literal scheme is necessary.) -/
theorem c8_amended (s₁ s₂ : String) (p₁ : ParsedRURI)
    (h₁ : parseRURI s₁ = .valid p₁)
    (hcase : listCaseEq s₁.data s₂.data = true)
    (hsch : startsWithList "rcan://".data (jsTrim s₂.data) = true) :
    ∃ p₂, parseRURI s₂ = .valid p₂ ∧
      listCaseEq p₂.registry.data p₁.registry.data = true ∧
      listCaseEq p₂.manufacturer.data p₁.manufacturer.data = true ∧
      listCaseEq p₂.model.data p₁.model.data = true ∧
      listCaseEq p₂.deviceId.data p₁.deviceId.data = true ∧
      p₂.port = p₁.port ∧
      optCaseEq p₂.capability p₁.capability = true := by
  obtain ⟨hs0, hsw₁, caps₁, hm₁, hp₁eq, hport₁⟩ := parseRURI_valid_elim h₁
  subst hp₁eq
  obtain ⟨hok₁, hsch₁, hasm₁⟩ := regex_sound hm₁
  obtain ⟨reg, man, mod, dev, pp, cp⟩ := caps₁
  simp only [capsOK, Bool.and_eq_true] at hok₁
  obtain ⟨⟨⟨⟨⟨hreg, hman⟩, hmod⟩, hdev⟩, hpp⟩, hcp⟩ := hok₁
  have hF : List.Forall₂ (fun c d => caseEq c d = true) (jsTrim s₁.data) (jsTrim s₂.data) :=
    jsTrim_caseEq (listCaseEq_iff.mp hcase)
  have hasm₁' : jsTrim s₁.data =
      (jsTrim s₁.data).take 7 ++ (reg ++ '/' :: (man ++ '/' :: (mod ++ '/' ::
        (dev ++ (portChars pp ++ capChars cp))))) :=
    hasm₁.trans (assemble_scheme_append _ _)
  rw [hasm₁'] at hF
  obtain ⟨sch₂, t0, he0, hFsch, hF0⟩ := forall2_append_split hF
  obtain ⟨reg₂, t1, he1, hFreg, hF1⟩ := forall2_append_split hF0
  obtain ⟨s1c, t2, he2, hslash1, hF2⟩ := forall2_cons_split hF1
  have hs1 : s1c = '/' := (caseEq_fix hslash1 (by decide)).symm
  subst hs1
  obtain ⟨man₂, t3, he3, hFman, hF3⟩ := forall2_append_split hF2
  obtain ⟨s2c, t4, he4, hslash2, hF4⟩ := forall2_cons_split hF3
  have hs2 : s2c = '/' := (caseEq_fix hslash2 (by decide)).symm
  subst hs2
  obtain ⟨mod₂, t5, he5, hFmod, hF5⟩ := forall2_append_split hF4
  obtain ⟨s3c, t6, he6, hslash3, hF6⟩ := forall2_cons_split hF5
  have hs3 : s3c = '/' := (caseEq_fix hslash3 (by decide)).symm
  subst hs3
  obtain ⟨dev₂, t7, he7, hFdev, hF7⟩ := forall2_append_split hF6
  obtain ⟨pt₂, ct₂, he8, hFpt, hFct⟩ := forall2_append_split hF7
  have hptEq : pt₂ = portChars pp := by
    cases pp with
    | none =>
      cases hFpt
      rfl
    | some ds =>
      have hFpt' : List.Forall₂ (fun c d => caseEq c d = true) (':' :: ds) pt₂ := hFpt
      obtain ⟨pc, ds₂, hep, hpc, hFds⟩ := forall2_cons_split hFpt'
      have h1 : pc = ':' := (caseEq_fix hpc (by decide)).symm
      have hdigits : ds.all isDigitChar = true := by
        have hpp' := hpp
        simp only [portCapOK, Bool.and_eq_true] at hpp'
        exact hpp'.2
      have h2 : ds₂ = ds := (forall2_digits_eq hFds hdigits).symm
      rw [hep, h1, h2]
      rfl
  have hctEq : capChars (cp.map fun _ => ct₂) = ct₂ := by
    cases cp with
    | none =>
      cases hFct
      rfl
    | some lc => rfl
  have hcpOK₂ : capCapOK (cp.map fun _ => ct₂) = true := by
    cases cp with
    | none => rfl
    | some lc =>
      have hFlc : List.Forall₂ (fun c d => caseEq c d = true) lc ct₂ := hFct
      have hcp' : capOK lc = true := hcp
      exact capOK_trans_mp hFlc hcp'
  have hok₂ : capsOK ⟨reg₂, man₂, mod₂, dev₂, pp, cp.map fun _ => ct₂⟩ = true := by
    simp only [capsOK, Bool.and_eq_true]
    refine ⟨⟨⟨⟨⟨?_, ?_⟩, ?_⟩, ?_⟩, ?_⟩, ?_⟩
    · rw [← segOK_caseEq caseEq_isAuthChar hFreg]
      exact hreg
    · rw [← segOK_caseEq caseEq_isSlugChar hFman]
      exact hman
    · rw [← segOK_caseEq caseEq_isSlugChar hFmod]
      exact hmod
    · rw [← deviceOK_caseEq hFdev]
      exact hdev
    · exact hpp
    · exact hcpOK₂
  have hsch₂eq : listCaseEq sch₂ "rcan://".data = true :=
    listCaseEq_iff.mpr
      (forall2_caseEq_trans (forall2_caseEq_symm hFsch) (listCaseEq_iff.mp hsch₁))
  have hrecon : jsTrim s₂.data =
      sch₂ ++ (reg₂ ++ '/' :: (man₂ ++ '/' :: (mod₂ ++ '/' ::
        (dev₂ ++ (portChars pp ++ capChars (cp.map fun _ => ct₂)))))) := by
    rw [he0, he1, he2, he3, he4, he5, he6, he7, he8, hptEq, hctEq]
  have hasm₂ : jsTrim s₂.data =
      assemble sch₂ ⟨reg₂, man₂, mod₂, dev₂, pp, cp.map fun _ => ct₂⟩ :=
    hrecon.trans
      (assemble_scheme_append sch₂ ⟨reg₂, man₂, mod₂, dev₂, pp, cp.map fun _ => ct₂⟩).symm
  have hm₂ : RURI_REGEX_match (jsTrim s₂.data) =
      some ⟨reg₂, man₂, mod₂, dev₂, pp, cp.map fun _ => ct₂⟩ := by
    rw [hasm₂]
    exact regex_complete hsch₂eq hok₂
  have hs₂0 : s₂ ≠ "" := by
    intro he
    subst he
    exact absurd hsch (by decide)
  have hvalid₂ := parseRURI_valid_intro hs₂0 hsch hm₂ (fun ds hds => hport₁ ds hds)
  refine ⟨⟨⟨jsTrim s₂.data⟩, ⟨reg₂⟩, ⟨man₂⟩, ⟨mod₂⟩, ⟨dev₂⟩, pp.map digitsToNat,
    capField (cp.map fun _ => ct₂)⟩, hvalid₂, ?_, ?_, ?_, ?_, rfl, ?_⟩
  · exact listCaseEq_iff.mpr (forall2_caseEq_symm hFreg)
  · exact listCaseEq_iff.mpr (forall2_caseEq_symm hFman)
  · exact listCaseEq_iff.mpr (forall2_caseEq_symm hFmod)
  · exact listCaseEq_iff.mpr (forall2_caseEq_symm hFdev)
  · cases cp with
    | none => rfl
    | some lc =>
      have hFlc : List.Forall₂ (fun c d => caseEq c d = true) lc ct₂ := hFct
      have hcp' : capOK lc = true := hcp
      have hcap₂ : capOK ct₂ = true := capOK_trans_mp hFlc hcp'
      obtain ⟨he₁, _⟩ := capField_of_capOK hcp'
      obtain ⟨he₂, _⟩ := capField_of_capOK hcap₂
      show optCaseEq (capField (some ct₂)) (capField (some lc)) = true
      rw [he₁, he₂]
      exact listCaseEq_iff.mpr (forall2_caseEq_symm (stripLeadSlash_caseEq hFlc))

/-- Witness for C8 amended: the case variant keeps the scheme lowercase and is
accepted with case-matching components. -/
theorem c8_amended_witness :
    parseRURI "rcan://example.com/acme/bot/deadbeef" =
      .valid ⟨"rcan://example.com/acme/bot/deadbeef", "example.com", "acme", "bot",
              "deadbeef", none, none⟩ ∧
    listCaseEq ("rcan://example.com/acme/bot/deadbeef" : String).data
      ("rcan://EXAMPLE.com/ACME/bot/DEADBEEF" : String).data = true ∧
    startsWithList "rcan://".data
      (jsTrim ("rcan://EXAMPLE.com/ACME/bot/DEADBEEF" : String).data) = true ∧
    ∃ p₂, parseRURI "rcan://EXAMPLE.com/ACME/bot/DEADBEEF" = .valid p₂ ∧
      listCaseEq p₂.registry.data ("example.com" : String).data = true ∧
      listCaseEq p₂.manufacturer.data ("acme" : String).data = true ∧
      listCaseEq p₂.model.data ("bot" : String).data = true ∧
      listCaseEq p₂.deviceId.data ("deadbeef" : String).data = true ∧
      p₂.port = none ∧
      optCaseEq p₂.capability none = true :=
  ⟨by decide, by decide, by decide,
   c8_amended "rcan://example.com/acme/bot/deadbeef"
     "rcan://EXAMPLE.com/ACME/bot/DEADBEEF"
     ⟨"rcan://example.com/acme/bot/deadbeef", "example.com", "acme", "bot",
      "deadbeef", none, none⟩ (by decide) (by decide) (by decide)⟩

/-- C10: both parsers trim leading and trailing whitespace before any validation.
Surrounding an accepted string with whitespace yields the very same parse result, and
the `raw` field holds the trimmed string, not the original input. -/
theorem c10_trimming (s w₁ w₂ : String)
    (hw₁ : ∀ c ∈ w₁.data, isJsWs c = true) (hw₂ : ∀ c ∈ w₂.data, isJsWs c = true) :
    (∀ p, parseRURI s = .valid p →
      parseRURI (w₁ ++ s ++ w₂) = .valid p ∧ p.raw = ⟨jsTrim s.data⟩) ∧
    (∀ q, syncParseRURI s = some q →
      syncParseRURI (w₁ ++ s ++ w₂) = some q ∧ q.raw = ⟨jsTrim s.data⟩) := by
  have hdata : (w₁ ++ s ++ w₂).data = w₁.data ++ s.data ++ w₂.data := by
    rw [String.data_append, String.data_append]
  have htr : jsTrim (w₁ ++ s ++ w₂).data = jsTrim s.data := by
    rw [hdata]
    exact jsTrim_pad hw₁ hw₂
  constructor
  · intro p hp
    obtain ⟨hs0, hsw, caps, hm, peq, hport⟩ := parseRURI_valid_elim hp
    subst peq
    have hne : (w₁ ++ s ++ w₂) ≠ "" := by
      intro he
      apply hs0
      have hd := congrArg String.data he
      rw [hdata] at hd
      apply String.ext
      rcases List.append_eq_nil.mp hd with ⟨h1, _⟩
      rcases List.append_eq_nil.mp h1 with ⟨_, h3⟩
      exact h3
    have hswp : startsWithList "rcan://".data (jsTrim (w₁ ++ s ++ w₂).data) = true := by
      rw [htr]
      exact hsw
    have hmp : RURI_REGEX_match (jsTrim (w₁ ++ s ++ w₂).data) = some caps := by
      rw [htr]
      exact hm
    have hv := parseRURI_valid_intro hne hswp hmp hport
    rw [htr] at hv
    exact ⟨hv, rfl⟩
  · intro q hq
    have hq' : ∃ caps, RURI_REGEX_match (jsTrim s.data) = some caps ∧
        q = ⟨⟨jsTrim s.data⟩, ⟨caps.registry⟩, ⟨caps.manufacturer⟩, ⟨caps.model⟩,
             ⟨caps.deviceId⟩, caps.port.map digitsToNat, capField caps.capability⟩ := by
      unfold syncParseRURI at hq
      cases hm2 : RURI_REGEX_match (jsTrim s.data) with
      | none =>
        rw [hm2] at hq
        cases hq
      | some caps =>
        rw [hm2] at hq
        have hq2 : some (⟨⟨jsTrim s.data⟩, ⟨caps.registry⟩, ⟨caps.manufacturer⟩,
            ⟨caps.model⟩, ⟨caps.deviceId⟩, caps.port.map digitsToNat,
            capField caps.capability⟩ : ParsedRURI) = some q := hq
        exact ⟨caps, rfl, (Option.some.inj hq2).symm⟩
    obtain ⟨caps, hm2, qeq⟩ := hq'
    subst qeq
    constructor
    · unfold syncParseRURI
      rw [htr, hm2]
    · rfl

/-- Witness for C10: a concrete identifier surrounded by spaces and a newline is
accepted by both parsers with the trimmed string as `raw`. -/
theorem c10_trimming_witness :
    parseRURI ("  " ++ "rcan://example.com/acme/bot/deadbeef" ++ "\n") =
      .valid ⟨"rcan://example.com/acme/bot/deadbeef", "example.com", "acme", "bot",
              "deadbeef", none, none⟩ ∧
    syncParseRURI ("  " ++ "rcan://example.com/acme/bot/deadbeef" ++ "\n") =
      some ⟨"rcan://example.com/acme/bot/deadbeef", "example.com", "acme", "bot",
            "deadbeef", none, none⟩ :=
  ⟨((c10_trimming "rcan://example.com/acme/bot/deadbeef" "  " "\n"
       (by decide) (by decide)).1
      ⟨"rcan://example.com/acme/bot/deadbeef", "example.com", "acme", "bot",
       "deadbeef", none, none⟩ (by decide)).1,
   ((c10_trimming "rcan://example.com/acme/bot/deadbeef" "  " "\n"
       (by decide) (by decide)).2
      ⟨"rcan://example.com/acme/bot/deadbeef", "example.com", "acme", "bot",
       "deadbeef", none, none⟩ (by decide)).1⟩

set_option maxRecDepth 16384 in
/-- C1 fails on the code: `findExistingByRURI` searches the store for the SOURCE
identifier string, but `manifestToYaml` persists the MANIFEST's own `ruri` field.
When the two differ, a second sync of the same source against the same manifest
snapshot does not find the record written by the first sync: it allocates a fresh
identifier and creates a second record, and the store never contains a record
claiming the source identifier. -/
theorem c1_counterexample :
    (syncRURI "rcan://example.com/acme/arm-bot/deadbeef" [] false
        (some { ruri := some "rcan://other.example/acme/arm-bot/cafef00d",
                name := some "ArmBot" }) "2026-01-02").rrn = some "RRN-00000001" ∧
    (syncRURI "rcan://example.com/acme/arm-bot/deadbeef"
        (syncRURI "rcan://example.com/acme/arm-bot/deadbeef" [] false
          (some { ruri := some "rcan://other.example/acme/arm-bot/cafef00d",
                  name := some "ArmBot" }) "2026-01-02").store false
        (some { ruri := some "rcan://other.example/acme/arm-bot/cafef00d",
                name := some "ArmBot" }) "2026-01-02").rrn = some "RRN-00000002" ∧
    (syncRURI "rcan://example.com/acme/arm-bot/deadbeef"
        (syncRURI "rcan://example.com/acme/arm-bot/deadbeef" [] false
          (some { ruri := some "rcan://other.example/acme/arm-bot/cafef00d",
                  name := some "ArmBot" }) "2026-01-02").store false
        (some { ruri := some "rcan://other.example/acme/arm-bot/cafef00d",
                name := some "ArmBot" }) "2026-01-02").store.length = 2 ∧
    recordCount
      (syncRURI "rcan://example.com/acme/arm-bot/deadbeef"
        (syncRURI "rcan://example.com/acme/arm-bot/deadbeef" [] false
          (some { ruri := some "rcan://other.example/acme/arm-bot/cafef00d",
                  name := some "ArmBot" }) "2026-01-02").store false
        (some { ruri := some "rcan://other.example/acme/arm-bot/cafef00d",
                name := some "ArmBot" }) "2026-01-02").store
      "rcan://example.com/acme/arm-bot/deadbeef" = 0 := by
  refine ⟨by decide, by decide, by decide, by decide⟩

/-- C1 (amended): on a well-formed store (distinct canonical `RRN-\d{8}.yaml` names)
holding at most one record for the source, and for a manifest whose own `ruri` field
equals the source identifier string, running reconciliation twice for a parseable
source yields the record identifier `chooseRRN store R` both times, each run leaves
exactly one record for the source, and the second run changes no file names. -/
theorem c1_amended (store : Store) (R d₁ d₂ : String) (m : ManifestJson)
    (wf : WfStore store) (hcount : recordCount store R ≤ 1)
    (hm : m.ruri = some R) (hp : syncParseRURI R ≠ none) :
    (syncRURI R store false (some m) d₁).rrn = some (chooseRRN store R) ∧
    recordCount (syncRURI R store false (some m) d₁).store R = 1 ∧
    (syncRURI R (syncRURI R store false (some m) d₁).store false (some m) d₂).rrn =
      some (chooseRRN store R) ∧
    recordCount
      (syncRURI R (syncRURI R store false (some m) d₁).store false (some m) d₂).store
      R = 1 ∧
    readdirNames
      (syncRURI R (syncRURI R store false (some m) d₁).store false (some m) d₂).store =
      readdirNames (syncRURI R store false (some m) d₁).store := by
  obtain ⟨pre, post, hst1, hrrn1, hpreF, hpostF, hpren, hpostn, hne, hnd⟩ :=
    sync_write_shape (m := m) (d := d₁) wf hcount hp
  have hy₁ : yamlFileHasRuri R (chooseRRN store R ++ ".yaml",
      manifestToYaml m (chooseRRN store R) d₁) = true := written_file_has_ruri hm
  have hy₂ : yamlFileHasRuri R (chooseRRN store R ++ ".yaml",
      manifestToYaml m (chooseRRN store R) d₂) = true := written_file_has_ruri hm
  have hc2 : chooseRRN (syncRURI R store false (some m) d₁).store R =
      chooseRRN store R := by
    rw [hst1]
    exact chooseRRN_after_write hpreF hy₁ hnd hne
  have hw2 : (syncRURI R (syncRURI R store false (some m) d₁).store false
        (some m) d₂).store =
      pre ++ (chooseRRN store R ++ ".yaml",
              manifestToYaml m (chooseRRN store R) d₂) :: post := by
    rw [syncRURI_write_eq _ d₂ hp, hc2, hst1]
    exact writeFileSync_update hpren hpostn
  refine ⟨hrrn1, ?_, ?_, ?_, ?_⟩
  · rw [hst1]
    exact recordCount_single hpreF hpostF hy₁
  · rw [syncRURI_write_eq _ d₂ hp]
    show some (chooseRRN (syncRURI R store false (some m) d₁).store R) =
      some (chooseRRN store R)
    rw [hc2]
  · rw [hw2]
    exact recordCount_single hpreF hpostF hy₂
  · rw [hw2, hst1]
    simp [readdirNames]

set_option maxRecDepth 16384 in
/-- Witness for C1 (amended): the empty store is well-formed, holds no record for the
source, the manifest's `ruri` field equals the source string, the source parses,
and both runs report the chosen identifier. -/
theorem c1_amended_witness :
    WfStore ([] : Store) ∧
    recordCount [] "rcan://example.com/acme/arm-bot/deadbeef" ≤ 1 ∧
    (ManifestJson.ruri
        { ruri := some "rcan://example.com/acme/arm-bot/deadbeef",
          name := some "ArmBot" } =
      some "rcan://example.com/acme/arm-bot/deadbeef") ∧
    syncParseRURI "rcan://example.com/acme/arm-bot/deadbeef" ≠ none ∧
    (syncRURI "rcan://example.com/acme/arm-bot/deadbeef" [] false
        (some { ruri := some "rcan://example.com/acme/arm-bot/deadbeef",
                name := some "ArmBot" }) "2026-01-02").rrn =
      some (chooseRRN [] "rcan://example.com/acme/arm-bot/deadbeef") :=
  ⟨by decide, by decide, by decide, by decide,
   (c1_amended [] "rcan://example.com/acme/arm-bot/deadbeef" "2026-01-02" "2026-01-03"
      { ruri := some "rcan://example.com/acme/arm-bot/deadbeef", name := some "ArmBot" }
      (by decide) (by decide) (by decide) (by decide)).1⟩

end RCAN
